import Mathlib

/-! # Data provenance chaincode (data_provenance.go)

A shallow embedding of the chaincode of `data_provenance.go` and of the parts of
its environment that decide its behaviour:

* Go strings and byte slices are lists of bytes (a Go string need not be valid
  UTF-8);
* `unicode/utf8` (`DecodeRune`, `EncodeRune`, `ValidString`) and
  `encoding/json` (`Marshal` and `Unmarshal` at the type `DataRecord`) are
  modelled after the behaviour of the Go standard library;
* the chaincode stub (`GetState`, `PutState`, `DelState`) is a key-value store
  whose calls can fail; which calls fail is a property of the store that the
  chaincode does not change;
* the calls that a transaction makes to the stub are listed, in order, by a
  function that follows the control flow of the transaction (`AddData.calls`).
-/

/-! ## Bytes and Go strings -/

/-- One byte. -/
abbrev Byte := Fin 256

/-- A Go `string` or `[]byte`: a sequence of bytes. -/
abbrev GoString := List Byte

/-- Go conversion `byte(n)`: the low eight bits. -/
def byte (n : Nat) : Byte := ⟨n % 256, Nat.mod_lt n (by decide)⟩

/-! ## unicode/utf8 -/

namespace utf8

/-- The replacement rune U+FFFD. -/
def RuneError : Nat := 0xFFFD

/-- The largest Unicode code point. -/
def MaxRune : Nat := 0x10FFFF

/-- Bytes below `RuneSelf` are single-byte runes. -/
def RuneSelf : Nat := 0x80

/-- The table `first` together with `acceptRanges`, for a lead byte `s0 ≥ 0x80`:
`none` for an invalid lead byte, otherwise the size of the encoding and the
accepted range of the second byte. -/
def first (s0 : Nat) : Option (Nat × Nat × Nat) :=
  if s0 < 0xC2 then none
  else if s0 < 0xE0 then some (2, 0x80, 0xBF)
  else if s0 = 0xE0 then some (3, 0xA0, 0xBF)
  else if s0 = 0xED then some (3, 0x80, 0x9F)
  else if s0 < 0xF0 then some (3, 0x80, 0xBF)
  else if s0 = 0xF0 then some (4, 0x90, 0xBF)
  else if s0 < 0xF4 then some (4, 0x80, 0xBF)
  else if s0 = 0xF4 then some (4, 0x80, 0x8F)
  else none

/-- The function `utf8.DecodeRune`: the first rune of `p` and its width in bytes;
`(RuneError, 0)` on empty input and `(RuneError, 1)` on an invalid encoding.
The masks and shifts of the Go code are written as `%` and `*`. -/
def DecodeRune (p : List Byte) : Nat × Nat :=
  match p with
  | [] => (RuneError, 0)
  | b0 :: t0 =>
    if b0.val < RuneSelf then (b0.val, 1)
    else
      match first b0.val with
      | none => (RuneError, 1)
      | some (sz, lo, hi) =>
        match t0 with
        | [] => (RuneError, 1)
        | b1 :: t1 =>
          if b1.val < lo ∨ hi < b1.val then (RuneError, 1)
          else if sz ≤ 2 then (b0.val % 32 * 64 + b1.val % 64, 2)
          else
            match t1 with
            | [] => (RuneError, 1)
            | b2 :: t2 =>
              if b2.val < 0x80 ∨ 0xBF < b2.val then (RuneError, 1)
              else if sz ≤ 3 then
                (b0.val % 16 * 4096 + b1.val % 64 * 64 + b2.val % 64, 3)
              else
                match t2 with
                | [] => (RuneError, 1)
                | b3 :: _ =>
                  if b3.val < 0x80 ∨ 0xBF < b3.val then (RuneError, 1)
                  else
                    (b0.val % 8 * 262144 + b1.val % 64 * 4096 + b2.val % 64 * 64
                      + b3.val % 64, 4)

/-- The function `utf8.EncodeRune`: the UTF-8 encoding of rune `r`; a surrogate or
a rune above `MaxRune` is encoded as `RuneError`. -/
def EncodeRune (r : Nat) : List Byte :=
  if r ≤ 0x7F then [byte r]
  else if r ≤ 0x7FF then [byte (0xC0 + r / 64), byte (0x80 + r % 64)]
  else if MaxRune < r ∨ (0xD800 ≤ r ∧ r ≤ 0xDFFF) then [0xEF, 0xBF, 0xBD]
  else if r ≤ 0xFFFF then
    [byte (0xE0 + r / 4096), byte (0x80 + r / 64 % 64), byte (0x80 + r % 64)]
  else
    [byte (0xF0 + r / 262144), byte (0x80 + r / 4096 % 64), byte (0x80 + r / 64 % 64),
      byte (0x80 + r % 64)]

/-- The loop of `utf8.ValidString`, one rune per iteration; the first argument
bounds the number of iterations. -/
def ValidStringLoop : Nat → GoString → Bool
  | 0, s => s.isEmpty
  | _ + 1, [] => true
  | n + 1, b :: rest =>
    if (DecodeRune (b :: rest)).1 = RuneError ∧ (DecodeRune (b :: rest)).2 = 1 then false
    else ValidStringLoop n (rest.drop ((DecodeRune (b :: rest)).2 - 1))

/-- The function `utf8.ValidString`: whether `s` consists entirely of valid
UTF-8-encoded runes. -/
def ValidString (s : GoString) : Bool := ValidStringLoop s.length s

/-- The loop of the conversion `string([]rune(s))`, one rune per iteration: valid
runes are kept and every invalid byte becomes U+FFFD; the first argument bounds the
number of iterations. -/
def toValidLoop : Nat → GoString → GoString
  | 0, _ => []
  | _ + 1, [] => []
  | n + 1, b :: rest =>
    if (DecodeRune (b :: rest)).1 = RuneError ∧ (DecodeRune (b :: rest)).2 = 1 then
      [0xEF, 0xBF, 0xBD] ++ toValidLoop n rest
    else
      (b :: rest).take (DecodeRune (b :: rest)).2
        ++ toValidLoop n (rest.drop ((DecodeRune (b :: rest)).2 - 1))

/-- The string `s` coerced to valid UTF-8 (the Go conversion `string([]rune(s))`):
every byte that does not start a valid encoding is replaced by U+FFFD. -/
def toValid (s : GoString) : GoString := toValidLoop s.length s

/-- The UTF-8 bytes of a string literal of the source. -/
def ofString (s : String) : GoString := s.data.flatMap fun c => EncodeRune c.toNat

end utf8

/-! ## unicode/utf16 -/

namespace utf16

/-- The function `utf16.IsSurrogate`: whether `r` is a surrogate code point. -/
def IsSurrogate (r : Nat) : Bool := 0xD800 ≤ r && r < 0xE000

/-- The function `utf16.DecodeRune`: the code point of the surrogate pair `(r1, r2)`, or
U+FFFD when the pair is not valid; `r2 = none` stands for the `-1` that `getu4`
returns when no second escape follows. -/
def DecodeRune (r1 : Nat) (r2 : Option Nat) : Nat :=
  match r2 with
  | none => 0xFFFD
  | some r2 =>
    if 0xD800 ≤ r1 ∧ r1 < 0xDC00 ∧ 0xDC00 ≤ r2 ∧ r2 < 0xE000 then
      (r1 - 0xD800) * 1024 + (r2 - 0xDC00) + 0x10000
    else 0xFFFD

end utf16

/-! ## The record -/

/-- A data record stored on the ledger; its JSON field names are `id` and
`content`. -/
structure DataRecord where
  ID : GoString
  Content : GoString
  deriving DecidableEq, Repr

/-! ## encoding/json, encoder -/

namespace json

/-- The errors of `encoding/json` that decoding into a `DataRecord` can return. -/
inductive JsonError
  | SyntaxError
  | UnmarshalTypeError (value : String)
  deriving DecidableEq, Repr

/-- The digit table `hex = "0123456789abcdef"`. -/
def hex (n : Nat) : Byte := if n < 10 then byte (0x30 + n) else byte (0x57 + n)

/-- The table `htmlSafeSet` on ASCII bytes: every byte from the space on, except the
double quote, the ampersand, the angle brackets and the backslash. -/
def htmlSafeSet (b : Byte) : Bool :=
  0x20 ≤ b.val && b.val != 0x22 && b.val != 0x26 && b.val != 0x3C && b.val != 0x3E
    && b.val != 0x5C

/-- What `appendString` (with `escapeHTML` set, as `Marshal` does) writes for one
ASCII byte: the byte itself when it is safe, a two-character escape for the backslash,
the double quote, backspace, form feed, line feed, carriage return and tab, and a
`u00XX` escape for the other control characters and for the ampersand and the angle
brackets. (Before Go 1.22 backspace and form feed were written as `u0008` and `u000c`;
both forms decode to the same byte.) -/
def appendByte (b : Byte) : List Byte :=
  if htmlSafeSet b then [b]
  else if b.val = 0x5C ∨ b.val = 0x22 then [0x5C, b]
  else if b.val = 0x08 then [0x5C, 0x62]
  else if b.val = 0x0C then [0x5C, 0x66]
  else if b.val = 0x0A then [0x5C, 0x6E]
  else if b.val = 0x0D then [0x5C, 0x72]
  else if b.val = 0x09 then [0x5C, 0x74]
  else [0x5C, 0x75, 0x30, 0x30, hex (b.val / 16), hex (b.val % 16)]

/-- The loop of `appendString` between the two quotes, one rune per iteration; the
first argument bounds the number of iterations. An invalid byte is written as the
escape of U+FFFD, and U+2028 and U+2029 are written as escapes. -/
def appendStringLoop : Nat → GoString → List Byte
  | 0, _ => []
  | _ + 1, [] => []
  | n + 1, b :: rest =>
    if b.val < utf8.RuneSelf then appendByte b ++ appendStringLoop n rest
    else if (utf8.DecodeRune (b :: rest)).1 = utf8.RuneError
        ∧ (utf8.DecodeRune (b :: rest)).2 = 1 then
      [0x5C, 0x75, 0x66, 0x66, 0x66, 0x64] ++ appendStringLoop n rest
    else if (utf8.DecodeRune (b :: rest)).1 = 0x2028
        ∨ (utf8.DecodeRune (b :: rest)).1 = 0x2029 then
      [0x5C, 0x75, 0x32, 0x30, 0x32, hex ((utf8.DecodeRune (b :: rest)).1 % 16)]
        ++ appendStringLoop n (rest.drop ((utf8.DecodeRune (b :: rest)).2 - 1))
    else
      (b :: rest).take (utf8.DecodeRune (b :: rest)).2
        ++ appendStringLoop n (rest.drop ((utf8.DecodeRune (b :: rest)).2 - 1))

/-- The function `appendString`: the JSON string literal for the Go string `src`. -/
def appendString (src : GoString) : List Byte :=
  0x22 :: (appendStringLoop src.length src ++ [0x22])

/-- The function `json.Marshal` at a `DataRecord`: the object with the fields `id` and
`content` in this order, without white space. It never fails at this type. -/
def Marshal (v : DataRecord) : List Byte × Option JsonError :=
  ([0x7B, 0x22, 0x69, 0x64, 0x22, 0x3A] ++ appendString v.ID
    ++ [0x2C, 0x22, 0x63, 0x6F, 0x6E, 0x74, 0x65, 0x6E, 0x74, 0x22, 0x3A]
    ++ appendString v.Content ++ [0x7D], none)

/-! ## encoding/json, decoder -/

/-- A JSON value as far as decoding into string fields can tell: a string carries
its unquoted bytes, an object its members in order. -/
inductive Value
  | null
  | bool
  | number
  | string (s : GoString)
  | array (elems : List Value)
  | object (members : List (GoString × Value))

/-- The nesting limit of the scanner. -/
def maxNestingDepth : Nat := 10000

/-- White space between tokens: space, tab, carriage return, line feed. -/
def isSpace (c : Byte) : Bool := c.val = 0x20 || c.val = 0x09 || c.val = 0x0D || c.val = 0x0A

/-- Skips leading white space. -/
def skipSpace : List Byte → List Byte
  | [] => []
  | c :: cs => if isSpace c then skipSpace cs else c :: cs

/-- A decimal digit. -/
def isDigit (c : Byte) : Bool := 0x30 ≤ c.val && c.val ≤ 0x39

/-- The value of a hexadecimal digit of either case. -/
def hexVal (c : Byte) : Option Nat :=
  if 0x30 ≤ c.val ∧ c.val ≤ 0x39 then some (c.val - 0x30)
  else if 0x61 ≤ c.val ∧ c.val ≤ 0x66 then some (c.val - 0x61 + 10)
  else if 0x41 ≤ c.val ∧ c.val ≤ 0x46 then some (c.val - 0x41 + 10)
  else none

/-- The function `getu4`: the code unit of an escape of the form backslash, `u`, four
hexadecimal digits at the start of `s`; `none` (Go: `-1`) when `s` does not start
with one. -/
def getu4 (s : List Byte) : Option Nat :=
  match s with
  | bs :: u :: h1 :: h2 :: h3 :: h4 :: _ =>
    if bs.val = 0x5C ∧ u.val = 0x75 then
      match hexVal h1, hexVal h2, hexVal h3, hexVal h4 with
      | some a, some b, some c, some d => some (((a * 16 + b) * 16 + c) * 16 + d)
      | _, _, _, _ => none
    else none
  | _ => none

/-- The byte that a two-character escape stands for. -/
def unescape (e : Byte) : Option Byte :=
  if e.val = 0x22 ∨ e.val = 0x5C ∨ e.val = 0x2F then some e
  else if e.val = 0x62 then some 0x08
  else if e.val = 0x66 then some 0x0C
  else if e.val = 0x6E then some 0x0A
  else if e.val = 0x72 then some 0x0D
  else if e.val = 0x74 then some 0x09
  else none

/-- Puts `out` in front of the bytes decoded so far. -/
def prepend (out : List Byte) (r : Option (GoString × List Byte)) :
    Option (GoString × List Byte) :=
  r.map fun p => (out ++ p.1, p.2)

/-- A string literal after its opening quote: the scanner's check of the literal and
`unquoteBytes` in one pass. Returns the unquoted bytes and the input after the
closing quote, `none` when the literal is not valid. Escaped surrogate pairs are
combined, a lone surrogate and an invalid UTF-8 byte become U+FFFD. The first
argument bounds the number of iterations. -/
def stringLit : Nat → List Byte → Option (GoString × List Byte)
  | 0, _ => none
  | _ + 1, [] => none
  | n + 1, c :: cs =>
    if c.val = 0x22 then some ([], cs)
    else if c.val = 0x5C then
      match cs with
      | [] => none
      | e :: cs1 =>
        if e.val = 0x75 then
          match getu4 (c :: cs) with
          | none => none
          | some rr =>
            if utf16.IsSurrogate rr then
              if utf16.DecodeRune rr (getu4 (cs.drop 5)) ≠ 0xFFFD then
                prepend (utf8.EncodeRune (utf16.DecodeRune rr (getu4 (cs.drop 5))))
                  (stringLit n (cs.drop 11))
              else prepend (utf8.EncodeRune 0xFFFD) (stringLit n (cs.drop 5))
            else prepend (utf8.EncodeRune rr) (stringLit n (cs.drop 5))
        else
          match unescape e with
          | none => none
          | some b => prepend [b] (stringLit n cs1)
    else if c.val < 0x20 then none
    else if c.val < utf8.RuneSelf then prepend [c] (stringLit n cs)
    else
      prepend (utf8.EncodeRune (utf8.DecodeRune (c :: cs)).1)
        (stringLit n (cs.drop ((utf8.DecodeRune (c :: cs)).2 - 1)))

/-- Skips leading decimal digits. -/
def digits : List Byte → List Byte
  | [] => []
  | c :: cs => if isDigit c then digits cs else c :: cs

/-- The exponent part of a number, if any; returns the input after the number. -/
def numberExp (s : List Byte) : Option (List Byte) :=
  match s with
  | [] => some []
  | c :: cs =>
    if c.val = 0x65 ∨ c.val = 0x45 then
      match cs with
      | [] => none
      | d :: ds =>
        if d.val = 0x2B ∨ d.val = 0x2D then
          match ds with
          | [] => none
          | d1 :: ds1 => if isDigit d1 then some (digits ds1) else none
        else if isDigit d then some (digits ds)
        else none
    else some (c :: cs)

/-- The fraction part of a number, if any, and what follows it. -/
def numberFrac (s : List Byte) : Option (List Byte) :=
  match s with
  | [] => some []
  | c :: cs =>
    if c.val = 0x2E then
      match cs with
      | [] => none
      | d :: ds => if isDigit d then numberExp (digits ds) else none
    else numberExp (c :: cs)

/-- The integer part of a number after the optional minus sign, and what follows. -/
def numberInt (s : List Byte) : Option (List Byte) :=
  match s with
  | [] => none
  | c :: cs =>
    if c.val = 0x30 then numberFrac cs
    else if 0x31 ≤ c.val ∧ c.val ≤ 0x39 then numberFrac (digits cs)
    else none

/-- A number literal: returns the input after it, `none` when it is not valid. -/
def numberLit (s : List Byte) : Option (List Byte) :=
  match s with
  | [] => none
  | c :: cs => if c.val = 0x2D then numberInt cs else numberInt (c :: cs)

/-- Matches the remaining letters `word` of `true`, `false` or `null`. -/
def literal (word : List Byte) (s : List Byte) : Option (List Byte) :=
  if s.take word.length = word then some (s.drop word.length) else none

mutual

/-- One JSON value, after optional white space: the value and the input after it,
`none` on a syntax error. `depth` is the number of arrays and objects that are
open; the first argument bounds the number of nested calls. -/
def value : Nat → Nat → List Byte → Option (Value × List Byte)
  | 0, _, _ => none
  | fuel + 1, depth, input =>
    match skipSpace input with
    | [] => none
    | c :: cs =>
      if c.val = 0x7B then
        if maxNestingDepth ≤ depth then none
        else
          match skipSpace cs with
          | [] => none
          | c1 :: cs1 =>
            if c1.val = 0x7D then some (Value.object [], cs1)
            else (members fuel (depth + 1) (c1 :: cs1)).map fun p => (Value.object p.1, p.2)
      else if c.val = 0x5B then
        if maxNestingDepth ≤ depth then none
        else
          match skipSpace cs with
          | [] => none
          | c1 :: cs1 =>
            if c1.val = 0x5D then some (Value.array [], cs1)
            else (elements fuel (depth + 1) (c1 :: cs1)).map fun p => (Value.array p.1, p.2)
      else if c.val = 0x22 then (stringLit cs.length cs).map fun p => (Value.string p.1, p.2)
      else if c.val = 0x74 then (literal [0x72, 0x75, 0x65] cs).map fun r => (Value.bool, r)
      else if c.val = 0x66 then
        (literal [0x61, 0x6C, 0x73, 0x65] cs).map fun r => (Value.bool, r)
      else if c.val = 0x6E then (literal [0x75, 0x6C, 0x6C] cs).map fun r => (Value.null, r)
      else if c.val = 0x2D ∨ isDigit c then
        (numberLit (c :: cs)).map fun r => (Value.number, r)
      else none

/-- The members of an object from the opening quote of a key up to the closing
brace. -/
def members : Nat → Nat → List Byte → Option (List (GoString × Value) × List Byte)
  | 0, _, _ => none
  | fuel + 1, depth, input =>
    match input with
    | [] => none
    | q :: cs =>
      if q.val = 0x22 then
        match stringLit cs.length cs with
        | none => none
        | some (key, r1) =>
          match skipSpace r1 with
          | [] => none
          | colon :: r2 =>
            if colon.val = 0x3A then
              match value fuel depth r2 with
              | none => none
              | some (v, r3) =>
                match skipSpace r3 with
                | [] => none
                | d :: r4 =>
                  if d.val = 0x7D then some ([(key, v)], r4)
                  else if d.val = 0x2C then
                    (members fuel depth (skipSpace r4)).map fun p => ((key, v) :: p.1, p.2)
                  else none
            else none
      else none

/-- The elements of an array from the first element up to the closing bracket. -/
def elements : Nat → Nat → List Byte → Option (List Value × List Byte)
  | 0, _, _ => none
  | fuel + 1, depth, input =>
    match value fuel depth input with
    | none => none
    | some (v, r1) =>
      match skipSpace r1 with
      | [] => none
      | d :: r2 =>
        if d.val = 0x5D then some ([v], r2)
        else if d.val = 0x2C then (elements fuel depth r2).map fun p => (v :: p.1, p.2)
        else none

end

/-- The whole input as one JSON value with optional white space around it
(`checkValid`), `none` on a syntax error. The bound given to `value` is never
reached (`value_fuel`). -/
def parse (data : List Byte) : Option Value :=
  match value (2 * data.length + 2) 0 data with
  | none => none
  | some (v, rest) => if skipSpace rest = [] then some v else none

/-- The fields of `DataRecord`. -/
inductive Field
  | ID
  | Content
  deriving DecidableEq, Repr

/-- ASCII lower case of one byte. -/
def lower (c : Byte) : Byte := if 0x41 ≤ c.val ∧ c.val ≤ 0x5A then byte (c.val + 0x20) else c

/-- The field that an object key names: the JSON names `id` and `content`, matched
exactly or without regard to the case of the letters. -/
def structField (key : GoString) : Option Field :=
  if key.map lower = [0x69, 0x64] then some Field.ID
  else if key.map lower = [0x63, 0x6F, 0x6E, 0x74, 0x65, 0x6E, 0x74] then some Field.Content
  else none

/-- Keeps the first error, as `saveError` does. -/
def saveError (saved : Option JsonError) (err : JsonError) : Option JsonError :=
  match saved with
  | some e => some e
  | none => some err

/-- Stores the JSON value `v` into a string field (`literalStore`, and `array` and
`object` at a string): a string is stored, `null` changes nothing, any other value
is a type error and leaves the field as it is. -/
def storeField (f : Field) (v : Value) (st : DataRecord × Option JsonError) :
    DataRecord × Option JsonError :=
  match v with
  | Value.string s =>
    match f with
    | Field.ID => ({ st.1 with ID := s }, st.2)
    | Field.Content => ({ st.1 with Content := s }, st.2)
  | Value.null => st
  | Value.bool => (st.1, saveError st.2 (JsonError.UnmarshalTypeError "bool"))
  | Value.number => (st.1, saveError st.2 (JsonError.UnmarshalTypeError "number"))
  | Value.array _ => (st.1, saveError st.2 (JsonError.UnmarshalTypeError "array"))
  | Value.object _ => (st.1, saveError st.2 (JsonError.UnmarshalTypeError "object"))

/-- Decodes the members of an object into the record, in order; a key that names
no field is skipped. -/
def object (ms : List (GoString × Value)) (st : DataRecord × Option JsonError) :
    DataRecord × Option JsonError :=
  ms.foldl (fun st m =>
    match structField m.1 with
    | none => st
    | some f => storeField f m.2 st) st

/-- The function `json.Unmarshal` into `v : DataRecord`: the record after decoding
and the error. A syntax error leaves the record as it is; an object is decoded
member by member; `null` has no effect; any other value is a type error. -/
def Unmarshal (data : List Byte) (v : DataRecord) : DataRecord × Option JsonError :=
  match parse data with
  | none => (v, some JsonError.SyntaxError)
  | some (Value.object ms) => object ms (v, none)
  | some Value.null => (v, none)
  | some Value.bool => (v, some (JsonError.UnmarshalTypeError "bool"))
  | some Value.number => (v, some (JsonError.UnmarshalTypeError "number"))
  | some (Value.string _) => (v, some (JsonError.UnmarshalTypeError "string"))
  | some (Value.array _) => (v, some (JsonError.UnmarshalTypeError "array"))

end json

/-! ## Errors and the chaincode stub -/

/-- The message of an error value returned by the stub. -/
abbrev StubError := GoString

/-- A Go `error` value, by where it was made: by `fmt.Errorf` in the chaincode (with
the formatted message), by the stub (returned to the caller as it is) or by
`encoding/json`. -/
inductive GoError
  | Errorf (msg : GoString)
  | stub (e : StubError)
  | json (e : json.JsonError)
  deriving DecidableEq, Repr

/-- The state store behind `ctx.GetStub()`: the value stored under each key (`none`:
no value), and for each call whether it fails and with which error. A failing
call changes nothing. -/
structure Stub where
  state : GoString → Option (List Byte)
  getErr : GoString → Option StubError
  putErr : GoString → List Byte → Option StubError
  delErr : GoString → Option StubError

/-- The store with `value` written under `key`. -/
def Stub.put (stub : Stub) (key : GoString) (value : List Byte) : Stub :=
  { stub with state := fun k => if k = key then some value else stub.state k }

/-- The store with `key` removed. -/
def Stub.del (stub : Stub) (key : GoString) : Stub :=
  { stub with state := fun k => if k = key then none else stub.state k }

/-- The call `GetState(key)`: the stored value (`none` is Go's `nil`) and the error. -/
def Stub.GetState (stub : Stub) (key : GoString) : Option (List Byte) × Option StubError :=
  match stub.getErr key with
  | some e => (none, some e)
  | none => (stub.state key, none)

/-- The call `PutState(key, value)`: the error and the store after the call. -/
def Stub.PutState (stub : Stub) (key : GoString) (value : List Byte) :
    Option StubError × Stub :=
  match stub.putErr key value with
  | some e => (some e, stub)
  | none => (none, stub.put key value)

/-- The call `DelState(key)`: the error and the store after the call. -/
def Stub.DelState (stub : Stub) (key : GoString) : Option StubError × Stub :=
  match stub.delErr key with
  | some e => (some e, stub)
  | none => (none, stub.del key)

/-- The store that holds no value, with the given failure behaviour. -/
def Stub.empty (getErr : GoString → Option StubError)
    (putErr : GoString → List Byte → Option StubError)
    (delErr : GoString → Option StubError) : Stub :=
  { state := fun _ => none, getErr := getErr, putErr := putErr, delErr := delErr }

/-- A store that holds no value and whose calls all succeed. -/
def Stub.new : Stub := Stub.empty (fun _ => none) (fun _ _ => none) (fun _ => none)

/-! ## The chaincode -/

/-- The message of the error for a record that already exists. -/
def alreadyExists (id : GoString) : GoError :=
  GoError.Errorf (utf8.ofString "o registro " ++ id ++ utf8.ofString " já existe")

/-- The message of the error for a record that does not exist. -/
def notFound (id : GoString) : GoError :=
  GoError.Errorf (utf8.ofString "o registro " ++ id ++ utf8.ofString " não existe")

/-- The error for a failed read of the ledger. -/
def readFailure (err : StubError) : GoError :=
  GoError.Errorf (utf8.ofString "falha ao ler do ledger: " ++ err)

/-- The error for a failed write of a seed record. -/
def insertFailure (err : StubError) : GoError :=
  GoError.Errorf (utf8.ofString "falha ao inserir dado no ledger: " ++ err)

/-- The seed records of `InitLedger`. -/
def seedData : List DataRecord :=
  [{ ID := utf8.ofString "1", Content := utf8.ofString "Texto de exemplo 1" },
   { ID := utf8.ofString "2", Content := utf8.ofString "Texto de exemplo 2" }]

/-- The loop of `InitLedger` over the remaining seed records. -/
def InitLedger.loop : Stub → List DataRecord → Option GoError × Stub
  | ctx, [] => (none, ctx)
  | ctx, record :: rest =>
    match json.Marshal record with
    | (_, some err) => (some (GoError.json err), ctx)
    | (recordJSON, none) =>
      match ctx.PutState record.ID recordJSON with
      | (some err, ctx1) => (some (insertFailure err), ctx1)
      | (none, ctx1) => InitLedger.loop ctx1 rest

/-- The transaction `InitLedger`: writes the seed records in order and stops at the
first failure. -/
def InitLedger (ctx : Stub) : Option GoError × Stub :=
  InitLedger.loop ctx seedData

/-- The transaction `DataExists`: whether the read of `id` gives a value. -/
def DataExists (ctx : Stub) (id : GoString) : Bool × Option GoError :=
  match ctx.GetState id with
  | (_, some err) => (false, some (readFailure err))
  | (recordJSON, none) => (recordJSON.isSome, none)

/-- The transaction `AddData`. -/
def AddData (ctx : Stub) (id content : GoString) : Option GoError × Stub :=
  match DataExists ctx id with
  | (_, some err) => (some err, ctx)
  | (true, none) => (some (alreadyExists id), ctx)
  | (false, none) =>
    match json.Marshal { ID := id, Content := content } with
    | (_, some err) => (some (GoError.json err), ctx)
    | (recordJSON, none) =>
      match ctx.PutState id recordJSON with
      | (some err, ctx1) => (some (GoError.stub err), ctx1)
      | (none, ctx1) => (none, ctx1)

/-- The transaction `ReadData`: the record (`none` is Go's `nil`) and the error. -/
def ReadData (ctx : Stub) (id : GoString) : Option DataRecord × Option GoError :=
  match ctx.GetState id with
  | (_, some err) => (none, some (readFailure err))
  | (none, none) => (none, some (notFound id))
  | (some recordJSON, none) =>
    match json.Unmarshal recordJSON { ID := [], Content := [] } with
    | (_, some err) => (none, some (GoError.json err))
    | (record, none) => (some record, none)

/-- The transaction `UpdateData`. -/
def UpdateData (ctx : Stub) (id newContent : GoString) : Option GoError × Stub :=
  match DataExists ctx id with
  | (_, some err) => (some err, ctx)
  | (false, none) => (some (notFound id), ctx)
  | (true, none) =>
    match json.Marshal { ID := id, Content := newContent } with
    | (_, some err) => (some (GoError.json err), ctx)
    | (recordJSON, none) =>
      match ctx.PutState id recordJSON with
      | (some err, ctx1) => (some (GoError.stub err), ctx1)
      | (none, ctx1) => (none, ctx1)

/-- The transaction `DeleteData`. -/
def DeleteData (ctx : Stub) (id : GoString) : Option GoError × Stub :=
  match DataExists ctx id with
  | (_, some err) => (some err, ctx)
  | (false, none) => (some (notFound id), ctx)
  | (true, none) =>
    match ctx.DelState id with
    | (some err, ctx1) => (some (GoError.stub err), ctx1)
    | (none, ctx1) => (none, ctx1)

/-! ## Sequences of transactions -/

/-- A transaction of the chaincode with its arguments. -/
inductive Op
  | initLedger
  | addData (id content : GoString)
  | updateData (id newContent : GoString)
  | deleteData (id : GoString)
  | readData (id : GoString)
  | dataExists (id : GoString)
  deriving DecidableEq, Repr

/-- Runs one transaction: its error and the store after it. -/
def Op.run (ctx : Stub) : Op → Option GoError × Stub
  | Op.initLedger => InitLedger ctx
  | Op.addData id content => AddData ctx id content
  | Op.updateData id newContent => UpdateData ctx id newContent
  | Op.deleteData id => DeleteData ctx id
  | Op.readData id => ((ReadData ctx id).2, ctx)
  | Op.dataExists id => ((DataExists ctx id).2, ctx)

/-- Runs a sequence of transactions from `ctx`: the store after the last one. -/
def runAll (ctx : Stub) : List Op → Stub
  | [] => ctx
  | op :: ops => runAll (op.run ctx).2 ops

/-- Whether `InitLedger`, called on `ctx`, writes a record under `id`: whether it leaves
a value under `id` when it is run on the store emptied of its values. -/
def InitLedger.writes (ctx : Stub) (id : GoString) : Bool :=
  ((InitLedger (Stub.empty ctx.getErr ctx.putErr ctx.delErr)).2.state id).isSome

/-- Whether the transaction `op`, run on `ctx`, adds a record under `id`: a successful
`AddData(id, _)`, or an `InitLedger` that writes a seed record under `id`. -/
def Op.adds (ctx : Stub) (op : Op) (id : GoString) : Bool :=
  match op with
  | Op.addData i content => i = id && (AddData ctx i content).1 = none
  | Op.initLedger => InitLedger.writes ctx id
  | _ => false

/-- Whether the transaction `op`, run on `ctx`, is a successful `AddData(id, _)`. -/
def Op.addsData (ctx : Stub) (op : Op) (id : GoString) : Bool :=
  match op with
  | Op.addData i content => i = id && (AddData ctx i content).1 = none
  | _ => false

/-- Whether the transaction `op`, run on `ctx`, is a successful `DeleteData(id)`. -/
def Op.deletes (ctx : Stub) (op : Op) (id : GoString) : Bool :=
  match op with
  | Op.deleteData i => i = id && (DeleteData ctx i).1 = none
  | _ => false

/-- Some transaction of the sequence `ops`, run from `ctx0`, adds a record under `id`,
and no successful `DeleteData(id)` comes after it in the sequence. Which transactions
count as adding a record is given by `adds`. -/
def addedNotDeleted (adds : Stub → Op → GoString → Bool) (ctx0 : Stub) (ops : List Op)
    (id : GoString) : Prop :=
  ∃ pre op post, ops = pre ++ op :: post ∧ adds (runAll ctx0 pre) op id = true
    ∧ ∀ pre2 op2 post2, post = pre2 ++ op2 :: post2 →
        op2.deletes (runAll ctx0 (pre ++ op :: pre2)) id = false

/-- Every value of the store is the encoding of a record whose ID is the key. -/
def keyedByID (ctx : Stub) : Prop :=
  ∀ k v, ctx.state k = some v →
    ∃ content, v = (json.Marshal { ID := k, Content := content }).1

/-! ## The calls a transaction makes to the stub -/

/-- A call of the chaincode to the stub. -/
inductive Call
  | get (key : GoString)
  | put (key : GoString) (value : List Byte)
  | del (key : GoString)
  deriving DecidableEq, Repr

/-- The store after the calls of a list, made in order. -/
def Stub.replay : Stub → List Call → Stub
  | stub, [] => stub
  | stub, Call.get _ :: rest => Stub.replay stub rest
  | stub, Call.put key value :: rest => Stub.replay (stub.PutState key value).2 rest
  | stub, Call.del key :: rest => Stub.replay (stub.DelState key).2 rest

/-- The calls of the loop of `InitLedger` over the remaining seed records, in order. -/
def InitLedger.loop.calls : Stub → List DataRecord → List Call
  | _, [] => []
  | ctx, record :: rest =>
    match json.Marshal record with
    | (_, some _) => []
    | (recordJSON, none) =>
      match ctx.PutState record.ID recordJSON with
      | (some _, _) => [Call.put record.ID recordJSON]
      | (none, ctx1) => Call.put record.ID recordJSON :: InitLedger.loop.calls ctx1 rest

/-- The calls of `InitLedger`, in order. -/
def InitLedger.calls (ctx : Stub) : List Call :=
  InitLedger.loop.calls ctx seedData

/-- The calls of `DataExists(id)`, in order: one read. -/
def DataExists.calls (id : GoString) : List Call :=
  [Call.get id]

/-- The calls of `AddData(id, content)`, in order. -/
def AddData.calls (ctx : Stub) (id content : GoString) : List Call :=
  match DataExists ctx id with
  | (_, some _) => DataExists.calls id
  | (true, none) => DataExists.calls id
  | (false, none) =>
    match json.Marshal { ID := id, Content := content } with
    | (_, some _) => DataExists.calls id
    | (recordJSON, none) => DataExists.calls id ++ [Call.put id recordJSON]

/-- The calls of `ReadData(id)`, in order: one read. -/
def ReadData.calls (id : GoString) : List Call :=
  [Call.get id]

/-- The calls of `UpdateData(id, newContent)`, in order. -/
def UpdateData.calls (ctx : Stub) (id newContent : GoString) : List Call :=
  match DataExists ctx id with
  | (_, some _) => DataExists.calls id
  | (false, none) => DataExists.calls id
  | (true, none) =>
    match json.Marshal { ID := id, Content := newContent } with
    | (_, some _) => DataExists.calls id
    | (recordJSON, none) => DataExists.calls id ++ [Call.put id recordJSON]

/-- The calls of `DeleteData(id)`, in order. -/
def DeleteData.calls (ctx : Stub) (id : GoString) : List Call :=
  match DataExists ctx id with
  | (_, some _) => DataExists.calls id
  | (false, none) => DataExists.calls id
  | (true, none) => DataExists.calls id ++ [Call.del id]

/-! ## Proofs: decoding and encoding one rune of UTF-8 -/

theorem byte_val_eq (b : Byte) (n : Nat) (h : n = b.val) : byte n = b := by
  apply Fin.ext
  have := b.isLt
  simp only [byte]
  omega

namespace utf8

theorem DecodeRune_two (b0 b1 : Byte) (t : List Byte)
    (h0 : 0xC2 ≤ b0.val ∧ b0.val ≤ 0xDF) (h1 : 0x80 ≤ b1.val ∧ b1.val ≤ 0xBF) :
    DecodeRune (b0 :: b1 :: t) = (b0.val % 32 * 64 + b1.val % 64, 2) := by
  have hf : first b0.val = some (2, 0x80, 0xBF) := by
    unfold first
    rw [if_neg (by omega), if_pos (by omega)]
  simp only [DecodeRune, RuneSelf, hf]
  rw [if_neg (by omega), if_neg (by omega), if_pos (by omega)]

theorem DecodeRune_three (b0 b1 b2 : Byte) (t : List Byte)
    (h0 : 0xE0 ≤ b0.val ∧ b0.val ≤ 0xEF) (h1 : 0x80 ≤ b1.val ∧ b1.val ≤ 0xBF)
    (hE0 : b0.val = 0xE0 → 0xA0 ≤ b1.val) (hED : b0.val = 0xED → b1.val ≤ 0x9F)
    (h2 : 0x80 ≤ b2.val ∧ b2.val ≤ 0xBF) :
    DecodeRune (b0 :: b1 :: b2 :: t)
      = (b0.val % 16 * 4096 + b1.val % 64 * 64 + b2.val % 64, 3) := by
  have hf : ∃ lo hi, first b0.val = some (3, lo, hi) ∧ lo ≤ b1.val ∧ b1.val ≤ hi := by
    unfold first
    by_cases e0 : b0.val = 0xE0
    · exact ⟨0xA0, 0xBF, by rw [if_neg (by omega), if_neg (by omega), if_pos e0], hE0 e0, h1.2⟩
    · by_cases ed : b0.val = 0xED
      · exact ⟨0x80, 0x9F, by rw [if_neg (by omega), if_neg (by omega), if_neg e0, if_pos ed],
          h1.1, hED ed⟩
      · exact ⟨0x80, 0xBF, by
          rw [if_neg (by omega), if_neg (by omega), if_neg e0, if_neg ed, if_pos (by omega)],
          h1.1, h1.2⟩
  obtain ⟨lo, hi, hf, hlo, hhi⟩ := hf
  simp only [DecodeRune, RuneSelf, hf]
  rw [if_neg (by omega), if_neg (by omega), if_neg (by omega), if_neg (by omega),
    if_pos (by omega)]

theorem DecodeRune_four (b0 b1 b2 b3 : Byte) (t : List Byte)
    (h0 : 0xF0 ≤ b0.val ∧ b0.val ≤ 0xF4) (h1 : 0x80 ≤ b1.val ∧ b1.val ≤ 0xBF)
    (hF0 : b0.val = 0xF0 → 0x90 ≤ b1.val) (hF4 : b0.val = 0xF4 → b1.val ≤ 0x8F)
    (h2 : 0x80 ≤ b2.val ∧ b2.val ≤ 0xBF) (h3 : 0x80 ≤ b3.val ∧ b3.val ≤ 0xBF) :
    DecodeRune (b0 :: b1 :: b2 :: b3 :: t)
      = (b0.val % 8 * 262144 + b1.val % 64 * 4096 + b2.val % 64 * 64 + b3.val % 64, 4) := by
  have hf : ∃ lo hi, first b0.val = some (4, lo, hi) ∧ lo ≤ b1.val ∧ b1.val ≤ hi := by
    unfold first
    by_cases e0 : b0.val = 0xF0
    · exact ⟨0x90, 0xBF, by
        rw [if_neg (by omega), if_neg (by omega), if_neg (by omega), if_neg (by omega),
          if_neg (by omega), if_pos e0], hF0 e0, h1.2⟩
    · by_cases e4 : b0.val = 0xF4
      · exact ⟨0x80, 0x8F, by
          rw [if_neg (by omega), if_neg (by omega), if_neg (by omega), if_neg (by omega),
            if_neg (by omega), if_neg e0, if_neg (by omega), if_pos e4], h1.1, hF4 e4⟩
      · exact ⟨0x80, 0xBF, by
          rw [if_neg (by omega), if_neg (by omega), if_neg (by omega), if_neg (by omega),
            if_neg (by omega), if_neg e0, if_pos (by omega)], h1.1, h1.2⟩
  obtain ⟨lo, hi, hf, hlo, hhi⟩ := hf
  simp only [DecodeRune, RuneSelf, hf]
  rw [if_neg (by omega), if_neg (by omega), if_neg (by omega), if_neg (by omega),
    if_neg (by omega), if_neg (by omega)]


/-- The shapes of a multi-byte decoding: either the lead byte is rejected, or the
input starts with a well-formed sequence of two, three or four bytes. -/
theorem DecodeRune_cases (b0 : Byte) (t0 : List Byte) (h : 0x80 ≤ b0.val) :
    DecodeRune (b0 :: t0) = (RuneError, 1)
    ∨ (∃ b1 t, t0 = b1 :: t ∧ (0xC2 ≤ b0.val ∧ b0.val ≤ 0xDF)
        ∧ (0x80 ≤ b1.val ∧ b1.val ≤ 0xBF))
    ∨ (∃ b1 b2 t, t0 = b1 :: b2 :: t ∧ (0xE0 ≤ b0.val ∧ b0.val ≤ 0xEF)
        ∧ (0x80 ≤ b1.val ∧ b1.val ≤ 0xBF) ∧ (b0.val = 0xE0 → 0xA0 ≤ b1.val)
        ∧ (b0.val = 0xED → b1.val ≤ 0x9F) ∧ (0x80 ≤ b2.val ∧ b2.val ≤ 0xBF))
    ∨ (∃ b1 b2 b3 t, t0 = b1 :: b2 :: b3 :: t ∧ (0xF0 ≤ b0.val ∧ b0.val ≤ 0xF4)
        ∧ (0x80 ≤ b1.val ∧ b1.val ≤ 0xBF) ∧ (b0.val = 0xF0 → 0x90 ≤ b1.val)
        ∧ (b0.val = 0xF4 → b1.val ≤ 0x8F) ∧ (0x80 ≤ b2.val ∧ b2.val ≤ 0xBF)
        ∧ (0x80 ≤ b3.val ∧ b3.val ≤ 0xBF)) := by
  by_cases hx : first b0.val = none
  · left
    simp only [DecodeRune, RuneSelf, hx]
    rw [if_neg (by omega)]
  obtain ⟨⟨sz, lo, hi⟩, hf⟩ := Option.ne_none_iff_exists'.mp hx
  have hfirst : (sz = 2 ∧ lo = 0x80 ∧ hi = 0xBF ∧ 0xC2 ≤ b0.val ∧ b0.val ≤ 0xDF)
      ∨ (sz = 3 ∧ 0x80 ≤ lo ∧ hi ≤ 0xBF ∧ 0xE0 ≤ b0.val ∧ b0.val ≤ 0xEF
          ∧ (b0.val = 0xE0 → lo = 0xA0) ∧ (b0.val = 0xED → hi = 0x9F))
      ∨ (sz = 4 ∧ 0x80 ≤ lo ∧ hi ≤ 0xBF ∧ 0xF0 ≤ b0.val ∧ b0.val ≤ 0xF4
          ∧ (b0.val = 0xF0 → lo = 0x90) ∧ (b0.val = 0xF4 → hi = 0x8F)) := by
    unfold first at hf
    split_ifs at hf <;> simp only [Option.some.injEq, Prod.mk.injEq] at hf <;> omega
  rcases t0 with _ | ⟨b1, t1⟩
  · left
    simp only [DecodeRune, RuneSelf, hf]
    rw [if_neg (by omega)]
  by_cases h1 : b1.val < lo ∨ hi < b1.val
  · left
    simp only [DecodeRune, RuneSelf, hf]
    rw [if_neg (by omega), if_pos h1]
  rcases hfirst with h2 | h3 | h4
  · right; left
    exact ⟨b1, t1, rfl, by omega, by omega⟩
  · rcases t1 with _ | ⟨b2, t2⟩
    · left
      simp only [DecodeRune, RuneSelf, hf]
      rw [if_neg (by omega), if_neg h1, if_neg (by omega)]
    by_cases h2 : b2.val < 0x80 ∨ 0xBF < b2.val
    · left
      simp only [DecodeRune, RuneSelf, hf]
      rw [if_neg (by omega), if_neg h1, if_neg (by omega), if_pos h2]
    right; right; left
    exact ⟨b1, b2, t2, rfl, by omega, by omega, by omega, by omega, by omega⟩
  · rcases t1 with _ | ⟨b2, t2⟩
    · left
      simp only [DecodeRune, RuneSelf, hf]
      rw [if_neg (by omega), if_neg h1, if_neg (by omega)]
    by_cases h2 : b2.val < 0x80 ∨ 0xBF < b2.val
    · left
      simp only [DecodeRune, RuneSelf, hf]
      rw [if_neg (by omega), if_neg h1, if_neg (by omega), if_pos h2]
    rcases t2 with _ | ⟨b3, t3⟩
    · left
      simp only [DecodeRune, RuneSelf, hf]
      rw [if_neg (by omega), if_neg h1, if_neg (by omega), if_neg h2, if_neg (by omega)]
    by_cases h3 : b3.val < 0x80 ∨ 0xBF < b3.val
    · left
      simp only [DecodeRune, RuneSelf, hf]
      rw [if_neg (by omega), if_neg h1, if_neg (by omega), if_neg h2, if_neg (by omega),
        if_pos h3]
    right; right; right
    exact ⟨b1, b2, b3, t3, rfl, by omega, by omega, by omega, by omega, by omega, by omega⟩

theorem EncodeRune_two (b0 b1 : Byte)
    (h0 : 0xC2 ≤ b0.val ∧ b0.val ≤ 0xDF) (h1 : 0x80 ≤ b1.val ∧ b1.val ≤ 0xBF) :
    EncodeRune (b0.val % 32 * 64 + b1.val % 64) = [b0, b1] := by
  unfold EncodeRune
  rw [if_neg (by omega), if_pos (by omega), byte_val_eq b0 _ (by omega),
    byte_val_eq b1 _ (by omega)]

theorem EncodeRune_three (b0 b1 b2 : Byte)
    (h0 : 0xE0 ≤ b0.val ∧ b0.val ≤ 0xEF) (h1 : 0x80 ≤ b1.val ∧ b1.val ≤ 0xBF)
    (hE0 : b0.val = 0xE0 → 0xA0 ≤ b1.val) (hED : b0.val = 0xED → b1.val ≤ 0x9F)
    (h2 : 0x80 ≤ b2.val ∧ b2.val ≤ 0xBF) :
    EncodeRune (b0.val % 16 * 4096 + b1.val % 64 * 64 + b2.val % 64) = [b0, b1, b2] := by
  unfold EncodeRune MaxRune
  rw [if_neg (by omega), if_neg (by omega), if_neg (by omega), if_pos (by omega),
    byte_val_eq b0 _ (by omega), byte_val_eq b1 _ (by omega), byte_val_eq b2 _ (by omega)]

theorem EncodeRune_four (b0 b1 b2 b3 : Byte)
    (h0 : 0xF0 ≤ b0.val ∧ b0.val ≤ 0xF4) (h1 : 0x80 ≤ b1.val ∧ b1.val ≤ 0xBF)
    (hF0 : b0.val = 0xF0 → 0x90 ≤ b1.val) (hF4 : b0.val = 0xF4 → b1.val ≤ 0x8F)
    (h2 : 0x80 ≤ b2.val ∧ b2.val ≤ 0xBF) (h3 : 0x80 ≤ b3.val ∧ b3.val ≤ 0xBF) :
    EncodeRune (b0.val % 8 * 262144 + b1.val % 64 * 4096 + b2.val % 64 * 64 + b3.val % 64)
      = [b0, b1, b2, b3] := by
  unfold EncodeRune MaxRune
  rw [if_neg (by omega), if_neg (by omega), if_neg (by omega), if_neg (by omega),
    byte_val_eq b0 _ (by omega), byte_val_eq b1 _ (by omega), byte_val_eq b2 _ (by omega),
    byte_val_eq b3 _ (by omega)]

end utf8

/-! ## A string literal written by the encoder, read by the decoder -/

namespace utf8

theorem DecodeRune_valid (b : Byte) (rest : List Byte) (h : 0x80 ≤ b.val)
    (hv : ¬ ((DecodeRune (b :: rest)).1 = RuneError ∧ (DecodeRune (b :: rest)).2 = 1)) :
    ∃ ct tail, rest = ct ++ tail ∧ ct.length + 1 = (DecodeRune (b :: rest)).2
      ∧ EncodeRune (DecodeRune (b :: rest)).1 = b :: ct
      ∧ (∀ Y, DecodeRune (b :: (ct ++ Y)) = DecodeRune (b :: rest))
      ∧ ∀ c ∈ ct, 0x80 ≤ c.val := by
  rcases DecodeRune_cases b rest h with hbad | ⟨b1, t, rfl, h0, h1⟩
    | ⟨b1, b2, t, rfl, h0, h1, hE0, hED, h2⟩
    | ⟨b1, b2, b3, t, rfl, h0, h1, hF0, hF4, h2, h3⟩
  · rw [hbad] at hv
    exact absurd ⟨rfl, rfl⟩ hv
  · refine ⟨[b1], t, rfl, ?_, ?_, ?_, ?_⟩
    · rw [DecodeRune_two b b1 t h0 h1]; rfl
    · rw [DecodeRune_two b b1 t h0 h1]; exact EncodeRune_two b b1 h0 h1
    · intro Y
      rw [DecodeRune_two b b1 t h0 h1]
      exact DecodeRune_two b b1 Y h0 h1
    · intro c hc
      simp only [List.mem_singleton] at hc
      subst hc; exact h1.1
  · refine ⟨[b1, b2], t, rfl, ?_, ?_, ?_, ?_⟩
    · rw [DecodeRune_three b b1 b2 t h0 h1 hE0 hED h2]; rfl
    · rw [DecodeRune_three b b1 b2 t h0 h1 hE0 hED h2]
      exact EncodeRune_three b b1 b2 h0 h1 hE0 hED h2
    · intro Y
      rw [DecodeRune_three b b1 b2 t h0 h1 hE0 hED h2]
      exact DecodeRune_three b b1 b2 Y h0 h1 hE0 hED h2
    · intro c hc
      simp only [List.mem_cons, List.mem_singleton, List.not_mem_nil, or_false] at hc
      rcases hc with rfl | rfl
      · exact h1.1
      · exact h2.1
  · refine ⟨[b1, b2, b3], t, rfl, ?_, ?_, ?_, ?_⟩
    · rw [DecodeRune_four b b1 b2 b3 t h0 h1 hF0 hF4 h2 h3]; rfl
    · rw [DecodeRune_four b b1 b2 b3 t h0 h1 hF0 hF4 h2 h3]
      exact EncodeRune_four b b1 b2 b3 h0 h1 hF0 hF4 h2 h3
    · intro Y
      rw [DecodeRune_four b b1 b2 b3 t h0 h1 hF0 hF4 h2 h3]
      exact DecodeRune_four b b1 b2 b3 Y h0 h1 hF0 hF4 h2 h3
    · intro c hc
      simp only [List.mem_cons, List.mem_singleton, List.not_mem_nil, or_false] at hc
      rcases hc with rfl | rfl | rfl
      · exact h1.1
      · exact h2.1
      · exact h3.1

theorem DecodeRune_ascii (b : Byte) (rest : List Byte) (h : b.val < 0x80) :
    DecodeRune (b :: rest) = (b.val, 1) := by
  simp only [DecodeRune, RuneSelf]
  rw [if_pos h]

end utf8

namespace json

theorem hexVal_hex (n : Nat) (h : n < 16) : hexVal (hex n) = some n := by
  interval_cases n <;> decide

theorem getu4_cons (h1 h2 h3 h4 : Byte) (X : List Byte) (a b c d : Nat)
    (e1 : hexVal h1 = some a) (e2 : hexVal h2 = some b) (e3 : hexVal h3 = some c)
    (e4 : hexVal h4 = some d) :
    getu4 (0x5C :: 0x75 :: h1 :: h2 :: h3 :: h4 :: X)
      = some (((a * 16 + b) * 16 + c) * 16 + d) := by
  simp only [getu4, e1, e2, e3, e4]
  rw [if_pos (by decide)]

theorem stringLit_escape (e b : Byte) (he : unescape e = some b) (f : Nat) (X : List Byte) :
    stringLit (f + 1) (0x5C :: e :: X) = prepend [b] (stringLit f X) := by
  have hne : ¬ e.val = 0x75 := by
    intro h
    unfold unescape at he
    rw [if_neg (by omega), if_neg (by omega), if_neg (by omega), if_neg (by omega),
      if_neg (by omega), if_neg (by omega)] at he
    exact Option.noConfusion he
  simp only [stringLit]
  rw [if_neg (by decide), if_pos (by decide), if_neg hne]
  simp only [he]

theorem stringLit_unicode (h1 h2 h3 h4 : Byte) (a b c d : Nat)
    (e1 : hexVal h1 = some a) (e2 : hexVal h2 = some b) (e3 : hexVal h3 = some c)
    (e4 : hexVal h4 = some d)
    (hs : utf16.IsSurrogate (((a * 16 + b) * 16 + c) * 16 + d) = false)
    (f : Nat) (X : List Byte) :
    stringLit (f + 1) (0x5C :: 0x75 :: h1 :: h2 :: h3 :: h4 :: X)
      = prepend (utf8.EncodeRune (((a * 16 + b) * 16 + c) * 16 + d)) (stringLit f X) := by
  simp only [stringLit]
  rw [if_neg (by decide), if_pos (by decide), if_pos (by decide),
    getu4_cons h1 h2 h3 h4 X a b c d e1 e2 e3 e4]
  simp only [hs, Bool.false_eq_true, if_false, List.drop_succ_cons, List.drop_zero]

theorem stringLit_appendByte (b : Byte) (hb : b.val < 0x80) (f : Nat) (X : List Byte) :
    stringLit (f + 1) (appendByte b ++ X) = prepend [b] (stringLit f X) := by
  unfold appendByte
  split_ifs with h1 h2 h3 h4 h5 h6 h7
  · simp only [htmlSafeSet, Bool.and_eq_true, decide_eq_true_eq, bne_iff_ne, ne_eq] at h1
    rw [List.cons_append, List.nil_append]
    simp only [stringLit, utf8.RuneSelf]
    rw [if_neg (by omega), if_neg (by omega), if_neg (by omega), if_pos hb]
  · refine stringLit_escape b b ?_ f X
    unfold unescape
    rw [if_pos (by omega)]
  · rw [← byte_val_eq b 0x08 h3.symm]
    exact stringLit_escape 0x62 0x08 (by decide) f X
  · rw [← byte_val_eq b 0x0C h4.symm]
    exact stringLit_escape 0x66 0x0C (by decide) f X
  · rw [← byte_val_eq b 0x0A h5.symm]
    exact stringLit_escape 0x6E 0x0A (by decide) f X
  · rw [← byte_val_eq b 0x0D h6.symm]
    exact stringLit_escape 0x72 0x0D (by decide) f X
  · rw [← byte_val_eq b 0x09 h7.symm]
    exact stringLit_escape 0x74 0x09 (by decide) f X
  · have hu := stringLit_unicode 0x30 0x30 (hex (b.val / 16)) (hex (b.val % 16)) 0 0
      (b.val / 16) (b.val % 16) (by decide) (by decide) (hexVal_hex _ (by omega))
      (hexVal_hex _ (by omega))
      (by
        simp only [utf16.IsSurrogate, Bool.and_eq_false_imp, decide_eq_true_eq,
          decide_eq_false_iff_not]
        omega) f X
    have he : utf8.EncodeRune (((0 * 16 + 0) * 16 + b.val / 16) * 16 + b.val % 16) = [b] := by
      unfold utf8.EncodeRune
      rw [if_pos (by omega), byte_val_eq b _ (by omega)]
    rw [he] at hu
    exact hu

theorem appendByte_length_pos (b : Byte) : 0 < (appendByte b).length := by
  unfold appendByte
  split_ifs <;> simp

theorem stringLit_rune (b : Byte) (ct X : List Byte) (f : Nat) (h : 0x80 ≤ b.val)
    (D : Nat × Nat) (hd : utf8.DecodeRune (b :: (ct ++ X)) = D) (hlen : ct.length + 1 = D.2)
    (henc : utf8.EncodeRune D.1 = b :: ct) :
    stringLit (f + 1) (b :: (ct ++ X)) = prepend (b :: ct) (stringLit f X) := by
  simp only [stringLit, utf8.RuneSelf]
  rw [if_neg (by omega), if_neg (by omega), if_neg (by omega), if_neg (by omega), hd, henc]
  have : D.2 - 1 = ct.length := by omega
  rw [this, List.drop_left]

theorem prepend_some (out s X : List Byte) :
    prepend out (some (s, X)) = some (out ++ s, X) := rfl

/-- Reading back the body of a string literal written by `appendString` gives the
string coerced to valid UTF-8. -/
theorem stringLit_appendStringLoop (n : Nat) :
    ∀ s : GoString, s.length ≤ n →
      ∀ (f : Nat) (X : List Byte), (appendStringLoop n s).length < f →
        stringLit f (appendStringLoop n s ++ 0x22 :: X) = some (utf8.toValidLoop n s, X) := by
  induction n with
  | zero =>
    intro s hs f X hf
    have hnil : s = [] := List.length_eq_zero.mp (Nat.le_zero.mp hs)
    subst hnil
    obtain ⟨f, rfl⟩ : ∃ k, f = k + 1 := ⟨f - 1, by omega⟩
    simp only [appendStringLoop, utf8.toValidLoop, List.nil_append, stringLit]
    rw [if_pos (by decide)]
  | succ n ih =>
    intro s hs f X hf
    obtain ⟨f, rfl⟩ : ∃ k, f = k + 1 := ⟨f - 1, by omega⟩
    rcases s with _ | ⟨b, rest⟩
    · simp only [appendStringLoop, utf8.toValidLoop, List.nil_append, stringLit]
      rw [if_pos (by decide)]
    have hrest : rest.length ≤ n := by
      simp only [List.length_cons] at hs
      omega
    by_cases hb : b.val < 0x80
    · have hd := utf8.DecodeRune_ascii b rest hb
      simp only [utf8.toValidLoop, hd, utf8.RuneError]
      rw [if_neg (by omega)]
      simp only [Nat.sub_self, List.drop_zero, List.take_succ_cons, List.take_zero]
      simp only [appendStringLoop, utf8.RuneSelf] at hf ⊢
      rw [if_pos hb] at hf ⊢
      rw [List.append_assoc, stringLit_appendByte b hb]
      rw [ih rest hrest f X (by
        have := appendByte_length_pos b
        simp only [List.length_append] at hf
        omega)]
      rfl
    · have hb2 : 0x80 ≤ b.val := by omega
      by_cases hvalid : (utf8.DecodeRune (b :: rest)).1 = utf8.RuneError
          ∧ (utf8.DecodeRune (b :: rest)).2 = 1
      · simp only [utf8.toValidLoop]
        rw [if_pos hvalid]
        simp only [appendStringLoop, utf8.RuneSelf] at hf ⊢
        rw [if_neg hb, if_pos hvalid] at hf ⊢
        have hu := stringLit_unicode 0x66 0x66 0x66 0x64 15 15 15 13 (by decide) (by decide)
          (by decide) (by decide) (by decide) f (appendStringLoop n rest ++ 0x22 :: X)
        have he : utf8.EncodeRune (((15 * 16 + 15) * 16 + 15) * 16 + 13) = [0xEF, 0xBF, 0xBD] := by
          decide
        rw [he] at hu
        rw [List.append_assoc]
        simp only [List.cons_append, List.nil_append]
        rw [hu, ih rest hrest f X (by
          simp only [List.length_append, List.length_cons] at hf
          omega), prepend_some]
        rfl
      obtain ⟨ct, tail, hsplit, hlen, henc, hdec, -⟩ := utf8.DecodeRune_valid b rest hb2 hvalid
      have hdrop : rest.drop ((utf8.DecodeRune (b :: rest)).2 - 1) = tail := by
        have : (utf8.DecodeRune (b :: rest)).2 - 1 = ct.length := by omega
        rw [this, hsplit, List.drop_left]
      have htake : (b :: rest).take (utf8.DecodeRune (b :: rest)).2 = b :: ct := by
        rw [← hlen, hsplit, List.take_succ_cons, List.take_left]
      have htail : tail.length ≤ n := by
        have : rest.length = ct.length + tail.length := by rw [hsplit, List.length_append]
        omega
      simp only [utf8.toValidLoop]
      rw [if_neg hvalid, hdrop, htake]
      simp only [appendStringLoop, utf8.RuneSelf] at hf ⊢
      rw [if_neg hb, if_neg hvalid, hdrop] at hf ⊢
      by_cases hsep : (utf8.DecodeRune (b :: rest)).1 = 0x2028
          ∨ (utf8.DecodeRune (b :: rest)).1 = 0x2029
      · rw [if_pos hsep] at hf ⊢
        have hu := stringLit_unicode 0x32 0x30 0x32 (hex ((utf8.DecodeRune (b :: rest)).1 % 16))
          2 0 2 ((utf8.DecodeRune (b :: rest)).1 % 16) (by decide) (by decide) (by decide)
          (hexVal_hex _ (by omega))
          (by
            simp only [utf16.IsSurrogate, Bool.and_eq_false_imp, decide_eq_true_eq,
              decide_eq_false_iff_not]
            omega) f (appendStringLoop n tail ++ 0x22 :: X)
        have hr : ((2 * 16 + 0) * 16 + 2) * 16 + (utf8.DecodeRune (b :: rest)).1 % 16
            = (utf8.DecodeRune (b :: rest)).1 := by omega
        rw [hr, henc] at hu
        rw [List.append_assoc]
        simp only [List.cons_append, List.nil_append]
        rw [hu, ih tail htail f X (by
          simp only [List.length_append, List.length_cons] at hf
          omega), prepend_some, List.cons_append]
      · rw [if_neg hsep, htake] at hf ⊢
        rw [List.append_assoc, List.cons_append]
        rw [stringLit_rune b ct _ f hb2 (utf8.DecodeRune (b :: rest)) (hdec _) hlen henc]
        rw [ih tail htail f X (by
          simp only [List.length_append, List.length_cons] at hf
          omega), prepend_some, List.cons_append]

end json

namespace utf8

/-- Coercion to valid UTF-8 leaves a valid string as it is. -/
theorem toValidLoop_of_valid (n : Nat) :
    ∀ s : GoString, s.length ≤ n → ValidStringLoop n s = true → toValidLoop n s = s := by
  induction n with
  | zero =>
    intro s hs _
    have hnil : s = [] := List.length_eq_zero.mp (Nat.le_zero.mp hs)
    subst hnil
    rfl
  | succ n ih =>
    intro s hs hv
    rcases s with _ | ⟨b, rest⟩
    · rfl
    have hrest : rest.length ≤ n := by
      simp only [List.length_cons] at hs
      omega
    have hvalid : ¬ ((DecodeRune (b :: rest)).1 = RuneError
        ∧ (DecodeRune (b :: rest)).2 = 1) := by
      intro hbad
      simp only [ValidStringLoop] at hv
      rw [if_pos hbad] at hv
      exact Bool.noConfusion hv
    simp only [ValidStringLoop] at hv
    rw [if_neg hvalid] at hv
    simp only [toValidLoop]
    rw [if_neg hvalid]
    have hlen : (rest.drop ((DecodeRune (b :: rest)).2 - 1)).length ≤ n := by
      rw [List.length_drop]
      omega
    rw [ih _ hlen hv]
    have h1 : 1 ≤ (DecodeRune (b :: rest)).2 := by
      by_cases hb : b.val < 0x80
      · rw [DecodeRune_ascii b rest hb]
      · obtain ⟨ct, tail, -, hl, -⟩ := DecodeRune_valid b rest (by omega) hvalid
        omega
    obtain ⟨k, hk⟩ : ∃ k, (DecodeRune (b :: rest)).2 = k + 1 :=
      ⟨(DecodeRune (b :: rest)).2 - 1, by omega⟩
    rw [hk, List.take_succ_cons, Nat.add_sub_cancel, List.cons_append, List.take_append_drop]

theorem toValid_of_valid (s : GoString) (h : ValidString s = true) : toValid s = s :=
  toValidLoop_of_valid s.length s (Nat.le_refl _) h

end utf8

/-! ## Encoding and decoding a record -/

namespace json

theorem skipSpace_cons (c : Byte) (cs : List Byte) (h : isSpace c = false) :
    skipSpace (c :: cs) = c :: cs := by
  simp only [skipSpace, h, Bool.false_eq_true, if_false]

theorem stringLit_appendString (s : GoString)
    (X : List Byte) (f : Nat) (hf : (appendStringLoop s.length s).length < f) :
    stringLit f (appendStringLoop s.length s ++ 0x22 :: X) = some (utf8.toValid s, X) :=
  stringLit_appendStringLoop s.length s (Nat.le_refl _) f X hf

theorem value_appendString (s : GoString) (fuel depth : Nat) (X : List Byte) :
    value (fuel + 1) depth (0x22 :: (appendStringLoop s.length s ++ 0x22 :: X))
      = some (Value.string (utf8.toValid s), X) := by
  simp only [value, skipSpace]
  rw [if_neg (by decide)]
  simp only
  rw [if_neg (by decide), if_neg (by decide), if_pos (by decide),
    stringLit_appendString s X _ (by simp)]
  rfl

theorem Marshal_eq (v : DataRecord) :
    (Marshal v).1 = 0x7B :: 0x22 :: 0x69 :: 0x64 :: 0x22 :: 0x3A :: 0x22
      :: (appendStringLoop v.ID.length v.ID ++ 0x22 :: 0x2C :: 0x22 :: 0x63 :: 0x6F :: 0x6E
        :: 0x74 :: 0x65 :: 0x6E :: 0x74 :: 0x22 :: 0x3A :: 0x22
        :: (appendStringLoop v.Content.length v.Content ++ 0x22 :: [0x7D])) := by
  simp [Marshal, appendString]

theorem members_last (key s : GoString) (fuel depth : Nat) (X : List Byte) :
    members (fuel + 2) depth (0x22 :: (appendStringLoop key.length key ++ 0x22 :: 0x3A :: 0x22
        :: (appendStringLoop s.length s ++ 0x22 :: 0x7D :: X)))
      = some ([(utf8.toValid key, Value.string (utf8.toValid s))], X) := by
  simp only [members]
  rw [if_pos (by decide), stringLit_appendString key _ _ (by simp)]
  simp only [skipSpace]
  rw [if_neg (by decide)]
  simp only
  rw [if_pos (by decide), value_appendString s]
  simp only [skipSpace]
  rw [if_neg (by decide)]
  simp only
  rw [if_pos (by decide)]

theorem members_more (key s : GoString) (fuel depth : Nat) (q : Byte) (X : List Byte)
    (hq : isSpace q = false) :
    members (fuel + 2) depth (0x22 :: (appendStringLoop key.length key ++ 0x22 :: 0x3A :: 0x22
        :: (appendStringLoop s.length s ++ 0x22 :: 0x2C :: q :: X)))
      = (members (fuel + 1) depth (q :: X)).map
          fun p => ((utf8.toValid key, Value.string (utf8.toValid s)) :: p.1, p.2) := by
  have hsp : skipSpace (q :: X) = q :: X := by
    simp only [skipSpace, hq, Bool.false_eq_true, if_false]
  rw [members]
  rw [if_pos (by decide), stringLit_appendString key _ _ (by simp)]
  simp only [skipSpace]
  rw [if_neg (by decide)]
  simp only
  rw [if_pos (by decide), value_appendString s]
  simp only [skipSpace]
  rw [if_neg (by decide)]
  simp only
  rw [if_neg (by decide), if_pos (by decide), hsp]

theorem parse_Marshal (v : DataRecord) :
    parse (Marshal v).1 = some (Value.object
      [([0x69, 0x64], Value.string (utf8.toValid v.ID)),
       ([0x63, 0x6F, 0x6E, 0x74, 0x65, 0x6E, 0x74], Value.string (utf8.toValid v.Content))]) := by
  unfold parse
  obtain ⟨k, hk⟩ : ∃ k, 2 * (Marshal v).1.length + 2 = k + 4 :=
    ⟨2 * (Marshal v).1.length - 2, by
      have : 1 ≤ (Marshal v).1.length := by rw [Marshal_eq]; simp
      omega⟩
  rw [hk, Marshal_eq]
  have hl : members (k + 2) 1 (0x22 :: 0x63 :: 0x6F :: 0x6E :: 0x74 :: 0x65 :: 0x6E :: 0x74
      :: 0x22 :: 0x3A :: 0x22 :: (appendStringLoop v.Content.length v.Content ++ 0x22 :: [0x7D]))
      = some ([([0x63, 0x6F, 0x6E, 0x74, 0x65, 0x6E, 0x74],
          Value.string (utf8.toValid v.Content))], []) :=
    members_last [0x63, 0x6F, 0x6E, 0x74, 0x65, 0x6E, 0x74] v.Content k 1 []
  have hm : members (k + 3) 1 (0x22 :: 0x69 :: 0x64 :: 0x22 :: 0x3A :: 0x22
      :: (appendStringLoop v.ID.length v.ID ++ 0x22 :: 0x2C :: 0x22 :: 0x63 :: 0x6F :: 0x6E
        :: 0x74 :: 0x65 :: 0x6E :: 0x74 :: 0x22 :: 0x3A :: 0x22
        :: (appendStringLoop v.Content.length v.Content ++ 0x22 :: [0x7D])))
      = some ([([0x69, 0x64], Value.string (utf8.toValid v.ID)),
          ([0x63, 0x6F, 0x6E, 0x74, 0x65, 0x6E, 0x74],
            Value.string (utf8.toValid v.Content))], []) := by
    have h := members_more [0x69, 0x64] v.ID (k + 1) 1 0x22
      (0x63 :: 0x6F :: 0x6E :: 0x74 :: 0x65 :: 0x6E :: 0x74 :: 0x22 :: 0x3A :: 0x22
        :: (appendStringLoop v.Content.length v.Content ++ 0x22 :: [0x7D])) (by decide)
    rw [hl] at h
    exact h
  rw [value, skipSpace_cons _ _ (by decide)]
  simp only
  rw [if_pos (by decide), if_neg (by decide), skipSpace_cons _ _ (by decide)]
  simp only
  rw [if_neg (by decide), hm]
  rfl

/-- Decoding the encoding of a record gives the record with both fields coerced to
valid UTF-8, whatever the record decoded into held before. -/
theorem Unmarshal_Marshal (v v0 : DataRecord) :
    Unmarshal (Marshal v).1 v0
      = ({ ID := utf8.toValid v.ID, Content := utf8.toValid v.Content }, none) := by
  unfold Unmarshal
  rw [parse_Marshal v]
  rfl

/-- Decoding the encoding of a record with valid UTF-8 fields gives the record back. -/
theorem Unmarshal_Marshal_valid (v v0 : DataRecord) (hid : utf8.ValidString v.ID = true)
    (hc : utf8.ValidString v.Content = true) :
    Unmarshal (Marshal v).1 v0 = (v, none) := by
  rw [Unmarshal_Marshal, utf8.toValid_of_valid _ hid, utf8.toValid_of_valid _ hc]

end json

/-! ## The fuel of the decoder -/

namespace json

theorem skipSpace_length_le (s : List Byte) : (skipSpace s).length ≤ s.length := by
  induction s with
  | nil => exact Nat.le_refl _
  | cons c cs ih =>
    unfold skipSpace
    split
    · exact Nat.le_succ_of_le ih
    · exact Nat.le_refl _

theorem digits_length_le (s : List Byte) : (digits s).length ≤ s.length := by
  induction s with
  | nil => exact Nat.le_refl _
  | cons c cs ih =>
    unfold digits
    split
    · exact Nat.le_succ_of_le ih
    · exact Nat.le_refl _

theorem prepend_eq_some (out : List Byte) (r : Option (GoString × List Byte))
    (k : GoString) (rest : List Byte) (h : prepend out r = some (k, rest)) :
    ∃ k1, r = some (k1, rest) := by
  cases r with
  | none => exact Option.noConfusion h
  | some p =>
    simp only [prepend, Option.map_some', Option.some.injEq, Prod.mk.injEq] at h
    exact ⟨p.1, by rw [← h.2]⟩

/-- A string literal that is valid ends before the end of the input. -/
theorem stringLit_length_lt (n : Nat) :
    ∀ (s : List Byte) (k : GoString) (rest : List Byte),
      stringLit n s = some (k, rest) → rest.length < s.length := by
  induction n with
  | zero => intro s k rest h; exact Option.noConfusion h
  | succ n ih =>
    intro s k rest h
    cases s with
    | nil => exact Option.noConfusion h
    | cons c cs =>
      have hd : ∀ j, (cs.drop j).length ≤ cs.length := fun j => by
        rw [List.length_drop]; exact Nat.sub_le _ _
      have hrec : ∀ (out : List Byte) (t : List Byte), t.length ≤ cs.length →
          prepend out (stringLit n t) = some (k, rest) → rest.length < (c :: cs).length := by
        intro out t ht hp
        obtain ⟨k1, hk1⟩ := prepend_eq_some _ _ _ _ hp
        have := ih t k1 rest hk1
        simp only [List.length_cons]
        omega
      unfold stringLit at h
      split at h
      · simp only [Option.some.injEq, Prod.mk.injEq] at h
        rw [← h.2]
        exact Nat.lt_succ_self _
      · split at h
        · split at h
          · exact Option.noConfusion h
          · rename_i e cs1
            split at h
            · split at h
              · exact Option.noConfusion h
              · split at h
                · split at h
                  · exact hrec _ _ (hd 11) h
                  · exact hrec _ _ (hd 5) h
                · exact hrec _ _ (hd 5) h
            · split at h
              · exact Option.noConfusion h
              · exact hrec _ _ (Nat.le_succ _) h
        · split at h
          · exact Option.noConfusion h
          · split at h
            · exact hrec _ _ (Nat.le_refl _) h
            · exact hrec _ _ (hd _) h

/-- The bound of `stringLit` is never reached once it is the length of the input. -/
theorem stringLit_fuel (n : Nat) :
    ∀ (m : Nat) (s : List Byte), s.length ≤ n → s.length ≤ m →
      stringLit n s = stringLit m s := by
  induction n with
  | zero =>
    intro m s hn hm
    have hs : s = [] := List.length_eq_zero.1 (Nat.le_zero.1 hn)
    subst hs
    cases m <;> rfl
  | succ n ih =>
    intro m s hn hm
    cases s with
    | nil => cases m <;> rfl
    | cons c cs =>
      cases m with
      | zero => simp at hm
      | succ m =>
        simp only [List.length_cons, Nat.add_le_add_iff_right] at hn hm
        have hd : ∀ j, stringLit n (cs.drop j) = stringLit m (cs.drop j) := fun j =>
          ih m (cs.drop j) (by rw [List.length_drop]; omega) (by rw [List.length_drop]; omega)
        have h0 : stringLit n cs = stringLit m cs := ih m cs hn hm
        cases cs with
        | nil => simp only [stringLit, h0, hd]
        | cons e cs1 =>
          have h1 : stringLit n cs1 = stringLit m cs1 :=
            ih m cs1 (by simp only [List.length_cons] at hn; omega)
              (by simp only [List.length_cons] at hm; omega)
          simp only [stringLit, h0, h1, hd]

theorem numberExp_length_le (s r : List Byte) (h : numberExp s = some r) :
    r.length ≤ s.length := by
  unfold numberExp at h
  split at h
  · simp only [Option.some.injEq] at h
    rw [← h]
  · rename_i c cs
    split at h
    · split at h
      · exact Option.noConfusion h
      · rename_i d ds
        split at h
        · split at h
          · exact Option.noConfusion h
          · rename_i d1 ds1
            split at h
            · simp only [Option.some.injEq] at h
              have := digits_length_le ds1
              rw [← h]
              simp only [List.length_cons]
              omega
            · exact Option.noConfusion h
        · split at h
          · simp only [Option.some.injEq] at h
            have := digits_length_le ds
            rw [← h]
            simp only [List.length_cons]
            omega
          · exact Option.noConfusion h
    · simp only [Option.some.injEq] at h
      rw [← h]

theorem numberFrac_length_le (s r : List Byte) (h : numberFrac s = some r) :
    r.length ≤ s.length := by
  unfold numberFrac at h
  split at h
  · simp only [Option.some.injEq] at h
    rw [← h]
  · rename_i c cs
    split at h
    · split at h
      · exact Option.noConfusion h
      · rename_i d ds
        split at h
        · have h1 := numberExp_length_le _ _ h
          have h2 := digits_length_le ds
          simp only [List.length_cons]
          omega
        · exact Option.noConfusion h
    · exact numberExp_length_le _ _ h

theorem numberInt_length_lt (s r : List Byte) (h : numberInt s = some r) :
    r.length < s.length := by
  unfold numberInt at h
  split at h
  · exact Option.noConfusion h
  · rename_i c cs
    split at h
    · have h1 := numberFrac_length_le _ _ h
      simp only [List.length_cons]
      omega
    · split at h
      · have h1 := numberFrac_length_le _ _ h
        have h2 := digits_length_le cs
        simp only [List.length_cons]
        omega
      · exact Option.noConfusion h

theorem numberLit_length_lt (s r : List Byte) (h : numberLit s = some r) :
    r.length < s.length := by
  unfold numberLit at h
  split at h
  · exact Option.noConfusion h
  · rename_i c cs
    split at h
    · have h1 := numberInt_length_lt _ _ h
      simp only [List.length_cons]
      omega
    · exact numberInt_length_lt _ _ h

theorem literal_length_le (word s r : List Byte) (h : literal word s = some r) :
    r.length ≤ s.length := by
  unfold literal at h
  split at h
  · simp only [Option.some.injEq] at h
    rw [← h, List.length_drop]
    exact Nat.sub_le _ _
  · exact Option.noConfusion h

/-- One step of the proof that the bound on the nested calls is not reached: `value`,
from `members` and `elements` with one call less. -/
theorem value_fuel_step (n : Nat)
    (ihm : ∀ d s ms rest, members n d s = some (ms, rest) →
      rest.length < s.length
        ∧ ∀ m, 2 * (s.length - rest.length) ≤ m → members m d s = some (ms, rest))
    (ihe : ∀ d s vs rest, elements n d s = some (vs, rest) →
      rest.length < s.length
        ∧ ∀ m, 2 * (s.length - rest.length) + 1 ≤ m → elements m d s = some (vs, rest)) :
    ∀ d s v rest, value (n + 1) d s = some (v, rest) →
      rest.length < s.length
        ∧ ∀ m, 2 * (s.length - rest.length) ≤ m → value m d s = some (v, rest) := by
  intro d s v rest h
  have hlen := skipSpace_length_le s
  cases hsk : skipSpace s with
  | nil =>
    rw [value, hsk] at h
    exact Option.noConfusion h
  | cons c cs =>
    rw [hsk] at hlen
    simp only [List.length_cons] at hlen
    have hlen2 := skipSpace_length_le cs
    rw [value, hsk] at h
    simp only at h
    by_cases h7B : c.val = 0x7B
    · rw [if_pos h7B] at h
      by_cases hdep : maxNestingDepth ≤ d
      · rw [if_pos hdep] at h
        exact Option.noConfusion h
      · rw [if_neg hdep] at h
        cases hsk2 : skipSpace cs with
        | nil =>
          rw [hsk2] at h
          exact Option.noConfusion h
        | cons c1 cs1 =>
          rw [hsk2] at h hlen2
          simp only [List.length_cons] at hlen2
          simp only at h
          by_cases h7D : c1.val = 0x7D
          · rw [if_pos h7D] at h
            simp only [Option.some.injEq, Prod.mk.injEq] at h
            obtain ⟨rfl, rfl⟩ := h
            refine ⟨by omega, fun m hm => ?_⟩
            obtain ⟨m1, rfl⟩ : ∃ m1, m = m1 + 1 := ⟨m - 1, by omega⟩
            rw [value, hsk]
            simp only
            rw [if_pos h7B, if_neg hdep, hsk2]
            simp only
            rw [if_pos h7D]
          · rw [if_neg h7D] at h
            cases hmem : members n (d + 1) (c1 :: cs1) with
            | none =>
              rw [hmem] at h
              exact Option.noConfusion h
            | some p =>
              rw [hmem] at h
              simp only [Option.map_some', Option.some.injEq, Prod.mk.injEq] at h
              obtain ⟨rfl, rfl⟩ := h
              obtain ⟨hl, hf⟩ := ihm (d + 1) (c1 :: cs1) p.1 p.2 hmem
              simp only [List.length_cons] at hl hf
              refine ⟨by omega, fun m hm => ?_⟩
              obtain ⟨m1, rfl⟩ : ∃ m1, m = m1 + 1 := ⟨m - 1, by omega⟩
              rw [value, hsk]
              simp only
              rw [if_pos h7B, if_neg hdep, hsk2]
              simp only
              rw [if_neg h7D, hf m1 (by omega)]
              rfl
    · rw [if_neg h7B] at h
      by_cases h5B : c.val = 0x5B
      · rw [if_pos h5B] at h
        by_cases hdep : maxNestingDepth ≤ d
        · rw [if_pos hdep] at h
          exact Option.noConfusion h
        · rw [if_neg hdep] at h
          cases hsk2 : skipSpace cs with
          | nil =>
            rw [hsk2] at h
            exact Option.noConfusion h
          | cons c1 cs1 =>
            rw [hsk2] at h hlen2
            simp only [List.length_cons] at hlen2
            simp only at h
            by_cases h5D : c1.val = 0x5D
            · rw [if_pos h5D] at h
              simp only [Option.some.injEq, Prod.mk.injEq] at h
              obtain ⟨rfl, rfl⟩ := h
              refine ⟨by omega, fun m hm => ?_⟩
              obtain ⟨m1, rfl⟩ : ∃ m1, m = m1 + 1 := ⟨m - 1, by omega⟩
              rw [value, hsk]
              simp only
              rw [if_neg h7B, if_pos h5B, if_neg hdep, hsk2]
              simp only
              rw [if_pos h5D]
            · rw [if_neg h5D] at h
              cases hel : elements n (d + 1) (c1 :: cs1) with
              | none =>
                rw [hel] at h
                exact Option.noConfusion h
              | some p =>
                rw [hel] at h
                simp only [Option.map_some', Option.some.injEq, Prod.mk.injEq] at h
                obtain ⟨rfl, rfl⟩ := h
                obtain ⟨hl, hf⟩ := ihe (d + 1) (c1 :: cs1) p.1 p.2 hel
                simp only [List.length_cons] at hl hf
                refine ⟨by omega, fun m hm => ?_⟩
                obtain ⟨m1, rfl⟩ : ∃ m1, m = m1 + 1 := ⟨m - 1, by omega⟩
                rw [value, hsk]
                simp only
                rw [if_neg h7B, if_pos h5B, if_neg hdep, hsk2]
                simp only
                rw [if_neg h5D, hf m1 (by omega)]
                rfl
      · rw [if_neg h5B] at h
        have hleaf : ∀ r : Option (Value × List Byte),
            (∀ m, value (m + 1) d s = r) → r = some (v, rest) → rest.length ≤ cs.length →
            rest.length < s.length
              ∧ ∀ m, 2 * (s.length - rest.length) ≤ m → value m d s = some (v, rest) := by
          intro r hr hv hl
          refine ⟨by omega, fun m hm => ?_⟩
          obtain ⟨m1, rfl⟩ : ∃ m1, m = m1 + 1 := ⟨m - 1, by omega⟩
          rw [hr m1, hv]
        refine hleaf _ (fun m => ?_) h ?_
        · rw [value, hsk]
          simp only
          rw [if_neg h7B, if_neg h5B]
        · by_cases h22 : c.val = 0x22
          · rw [if_pos h22] at h
            cases hst : stringLit cs.length cs with
            | none =>
              rw [hst] at h
              exact Option.noConfusion h
            | some p =>
              rw [hst] at h
              simp only [Option.map_some', Option.some.injEq, Prod.mk.injEq] at h
              obtain ⟨-, rfl⟩ := h
              exact Nat.le_of_lt (stringLit_length_lt _ cs p.1 p.2 hst)
          · rw [if_neg h22] at h
            have hlit : ∀ (word : List Byte) (val : Value),
                (literal word cs).map (fun r => (val, r)) = some (v, rest) →
                rest.length ≤ cs.length := by
              intro word val hw
              cases hl : literal word cs with
              | none =>
                rw [hl] at hw
                exact Option.noConfusion hw
              | some r =>
                rw [hl] at hw
                simp only [Option.map_some', Option.some.injEq, Prod.mk.injEq] at hw
                obtain ⟨-, rfl⟩ := hw
                exact literal_length_le _ _ _ hl
            by_cases h74 : c.val = 0x74
            · rw [if_pos h74] at h
              exact hlit _ _ h
            · rw [if_neg h74] at h
              by_cases h66 : c.val = 0x66
              · rw [if_pos h66] at h
                exact hlit _ _ h
              · rw [if_neg h66] at h
                by_cases h6E : c.val = 0x6E
                · rw [if_pos h6E] at h
                  exact hlit _ _ h
                · rw [if_neg h6E] at h
                  by_cases hnum : c.val = 0x2D ∨ isDigit c = true
                  · rw [if_pos hnum] at h
                    cases hl : numberLit (c :: cs) with
                    | none =>
                      rw [hl] at h
                      exact Option.noConfusion h
                    | some r =>
                      rw [hl] at h
                      simp only [Option.map_some', Option.some.injEq, Prod.mk.injEq] at h
                      obtain ⟨-, rfl⟩ := h
                      have := numberLit_length_lt _ _ hl
                      simp only [List.length_cons] at this
                      omega
                  · rw [if_neg hnum] at h
                    exact Option.noConfusion h

/-- One step of the proof that the bound on the nested calls is not reached: `members`,
from `value` and `members` with one call less. -/
theorem members_fuel_step (n : Nat)
    (ihv : ∀ d s v rest, value n d s = some (v, rest) →
      rest.length < s.length
        ∧ ∀ m, 2 * (s.length - rest.length) ≤ m → value m d s = some (v, rest))
    (ihm : ∀ d s ms rest, members n d s = some (ms, rest) →
      rest.length < s.length
        ∧ ∀ m, 2 * (s.length - rest.length) ≤ m → members m d s = some (ms, rest)) :
    ∀ d s ms rest, members (n + 1) d s = some (ms, rest) →
      rest.length < s.length
        ∧ ∀ m, 2 * (s.length - rest.length) ≤ m → members m d s = some (ms, rest) := by
  intro d s ms rest h
  cases s with
  | nil =>
    rw [members] at h
    exact Option.noConfusion h
  | cons q cs =>
    rw [members] at h
    by_cases h22 : q.val = 0x22
    · rw [if_pos h22] at h
      cases hst : stringLit cs.length cs with
      | none =>
        rw [hst] at h
        exact Option.noConfusion h
      | some p =>
        obtain ⟨key, r1⟩ := p
        rw [hst] at h
        simp only at h
        have hl1 := stringLit_length_lt _ cs key r1 hst
        have hl2 := skipSpace_length_le r1
        cases hsk : skipSpace r1 with
        | nil =>
          rw [hsk] at h
          exact Option.noConfusion h
        | cons colon r2 =>
          rw [hsk] at h hl2
          simp only [List.length_cons] at hl2
          simp only at h
          by_cases h3A : colon.val = 0x3A
          · rw [if_pos h3A] at h
            cases hval : value n d r2 with
            | none =>
              rw [hval] at h
              exact Option.noConfusion h
            | some p =>
              obtain ⟨v, r3⟩ := p
              rw [hval] at h
              simp only at h
              obtain ⟨hl3, hfv⟩ := ihv d r2 v r3 hval
              have hl4 := skipSpace_length_le r3
              cases hsk3 : skipSpace r3 with
              | nil =>
                rw [hsk3] at h
                exact Option.noConfusion h
              | cons e r4 =>
                rw [hsk3] at h hl4
                simp only [List.length_cons] at hl4
                simp only at h
                have hl5 := skipSpace_length_le r4
                by_cases h7D : e.val = 0x7D
                · rw [if_pos h7D] at h
                  simp only [Option.some.injEq, Prod.mk.injEq] at h
                  obtain ⟨rfl, rfl⟩ := h
                  simp only [List.length_cons]
                  refine ⟨by omega, fun m hm => ?_⟩
                  obtain ⟨m1, rfl⟩ : ∃ m1, m = m1 + 1 := ⟨m - 1, by omega⟩
                  rw [members, if_pos h22, hst]
                  simp only
                  rw [hsk]
                  simp only
                  rw [if_pos h3A, hfv m1 (by omega)]
                  simp only
                  rw [hsk3]
                  simp only
                  rw [if_pos h7D]
                · rw [if_neg h7D] at h
                  by_cases h2C : e.val = 0x2C
                  · rw [if_pos h2C] at h
                    cases hmem : members n d (skipSpace r4) with
                    | none =>
                      rw [hmem] at h
                      exact Option.noConfusion h
                    | some p =>
                      rw [hmem] at h
                      simp only [Option.map_some', Option.some.injEq, Prod.mk.injEq] at h
                      obtain ⟨rfl, rfl⟩ := h
                      obtain ⟨hl6, hfm⟩ := ihm d (skipSpace r4) p.1 p.2 hmem
                      simp only [List.length_cons]
                      refine ⟨by omega, fun m hm => ?_⟩
                      obtain ⟨m1, rfl⟩ : ∃ m1, m = m1 + 1 := ⟨m - 1, by omega⟩
                      rw [members, if_pos h22, hst]
                      simp only
                      rw [hsk]
                      simp only
                      rw [if_pos h3A, hfv m1 (by omega)]
                      simp only
                      rw [hsk3]
                      simp only
                      rw [if_neg h7D, if_pos h2C, hfm m1 (by omega)]
                      rfl
                  · rw [if_neg h2C] at h
                    exact Option.noConfusion h
          · rw [if_neg h3A] at h
            exact Option.noConfusion h
    · rw [if_neg h22] at h
      exact Option.noConfusion h

/-- One step of the proof that the bound on the nested calls is not reached:
`elements`, from `value` and `elements` with one call less. -/
theorem elements_fuel_step (n : Nat)
    (ihv : ∀ d s v rest, value n d s = some (v, rest) →
      rest.length < s.length
        ∧ ∀ m, 2 * (s.length - rest.length) ≤ m → value m d s = some (v, rest))
    (ihe : ∀ d s vs rest, elements n d s = some (vs, rest) →
      rest.length < s.length
        ∧ ∀ m, 2 * (s.length - rest.length) + 1 ≤ m → elements m d s = some (vs, rest)) :
    ∀ d s vs rest, elements (n + 1) d s = some (vs, rest) →
      rest.length < s.length
        ∧ ∀ m, 2 * (s.length - rest.length) + 1 ≤ m → elements m d s = some (vs, rest) := by
  intro d s vs rest h
  rw [elements] at h
  cases hval : value n d s with
  | none =>
    rw [hval] at h
    exact Option.noConfusion h
  | some p =>
    obtain ⟨v, r1⟩ := p
    rw [hval] at h
    simp only at h
    obtain ⟨hl1, hfv⟩ := ihv d s v r1 hval
    have hl2 := skipSpace_length_le r1
    cases hsk : skipSpace r1 with
    | nil =>
      rw [hsk] at h
      exact Option.noConfusion h
    | cons e r2 =>
      rw [hsk] at h hl2
      simp only [List.length_cons] at hl2
      simp only at h
      by_cases h5D : e.val = 0x5D
      · rw [if_pos h5D] at h
        simp only [Option.some.injEq, Prod.mk.injEq] at h
        obtain ⟨rfl, rfl⟩ := h
        refine ⟨by omega, fun m hm => ?_⟩
        obtain ⟨m1, rfl⟩ : ∃ m1, m = m1 + 1 := ⟨m - 1, by omega⟩
        rw [elements, hfv m1 (by omega)]
        simp only
        rw [hsk]
        simp only
        rw [if_pos h5D]
      · rw [if_neg h5D] at h
        by_cases h2C : e.val = 0x2C
        · rw [if_pos h2C] at h
          cases hel : elements n d r2 with
          | none =>
            rw [hel] at h
            exact Option.noConfusion h
          | some p =>
            rw [hel] at h
            simp only [Option.map_some', Option.some.injEq, Prod.mk.injEq] at h
            obtain ⟨rfl, rfl⟩ := h
            obtain ⟨hl3, hfe⟩ := ihe d r2 p.1 p.2 hel
            refine ⟨by omega, fun m hm => ?_⟩
            obtain ⟨m1, rfl⟩ : ∃ m1, m = m1 + 1 := ⟨m - 1, by omega⟩
            rw [elements, hfv m1 (by omega)]
            simp only
            rw [hsk]
            simp only
            rw [if_neg h5D, if_pos h2C, hfe m1 (by omega)]
            rfl
        · rw [if_neg h2C] at h
          exact Option.noConfusion h

/-- A call of `value`, `members` or `elements` that gives a result consumes input, and
gives the same result with every bound of at least twice the number of bytes
consumed (plus one for `elements`). -/
theorem fuel_of_result (n : Nat) :
    (∀ d s v rest, value n d s = some (v, rest) →
        rest.length < s.length
          ∧ ∀ m, 2 * (s.length - rest.length) ≤ m → value m d s = some (v, rest))
      ∧ (∀ d s ms rest, members n d s = some (ms, rest) →
        rest.length < s.length
          ∧ ∀ m, 2 * (s.length - rest.length) ≤ m → members m d s = some (ms, rest))
      ∧ (∀ d s vs rest, elements n d s = some (vs, rest) →
        rest.length < s.length
          ∧ ∀ m, 2 * (s.length - rest.length) + 1 ≤ m → elements m d s = some (vs, rest)) := by
  induction n with
  | zero =>
    refine ⟨fun d s v rest h => ?_, fun d s ms rest h => ?_, fun d s vs rest h => ?_⟩
    · rw [value] at h
      exact Option.noConfusion h
    · rw [members] at h
      exact Option.noConfusion h
    · rw [elements] at h
      exact Option.noConfusion h
  | succ n ih =>
    exact ⟨value_fuel_step n ih.2.1 ih.2.2, members_fuel_step n ih.1 ih.2.1,
      elements_fuel_step n ih.1 ih.2.2⟩

/-- The bound on the nested calls in `parse` is never reached: every larger bound
gives the same result, a value or a syntax error. -/
theorem value_fuel (data : List Byte) (n : Nat) (h : 2 * data.length + 2 ≤ n) :
    value n 0 data = value (2 * data.length + 2) 0 data := by
  cases h1 : value n 0 data with
  | some p =>
    obtain ⟨hl, hf⟩ := (fuel_of_result n).1 0 data p.1 p.2 h1
    exact (hf _ (by omega)).symm
  | none =>
    cases h2 : value (2 * data.length + 2) 0 data with
    | none => rfl
    | some p =>
      obtain ⟨hl, hf⟩ := (fuel_of_result _).1 0 data p.1 p.2 h2
      rw [hf n (by omega)] at h1
      exact Option.noConfusion h1

end json

/-! ## The transactions, case by case -/

theorem Stub.put_state_same (ctx : Stub) (key : GoString) (value : List Byte) :
    (ctx.put key value).state key = some value := by
  simp only [Stub.put, if_true]

theorem Stub.put_state_other (ctx : Stub) (key k : GoString) (value : List Byte) (h : k ≠ key) :
    (ctx.put key value).state k = ctx.state k := by
  simp only [Stub.put, if_neg h]

theorem Stub.del_state_same (ctx : Stub) (key : GoString) :
    (ctx.del key).state key = none := by
  simp only [Stub.del, if_true]

theorem Stub.del_state_other (ctx : Stub) (key k : GoString) (h : k ≠ key) :
    (ctx.del key).state k = ctx.state k := by
  simp only [Stub.del, if_neg h]

theorem DataExists_of_getErr (ctx : Stub) (id : GoString) (e : StubError)
    (h : ctx.getErr id = some e) : DataExists ctx id = (false, some (readFailure e)) := by
  simp only [DataExists, Stub.GetState, h]

theorem DataExists_of_read (ctx : Stub) (id : GoString) (h : ctx.getErr id = none) :
    DataExists ctx id = ((ctx.state id).isSome, none) := by
  simp only [DataExists, Stub.GetState, h]

theorem AddData_of_getErr (ctx : Stub) (id content : GoString) (e : StubError)
    (h : ctx.getErr id = some e) : AddData ctx id content = (some (readFailure e), ctx) := by
  simp only [AddData, DataExists_of_getErr ctx id e h]

theorem AddData_of_present (ctx : Stub) (id content : GoString) (v : List Byte)
    (hg : ctx.getErr id = none) (hs : ctx.state id = some v) :
    AddData ctx id content = (some (alreadyExists id), ctx) := by
  simp only [AddData, DataExists_of_read ctx id hg, hs, Option.isSome_some]

theorem AddData_of_absent (ctx : Stub) (id content : GoString)
    (hg : ctx.getErr id = none) (hs : ctx.state id = none) :
    AddData ctx id content
      = match ctx.putErr id (json.Marshal { ID := id, Content := content }).1 with
        | some e => (some (GoError.stub e), ctx)
        | none => (none, ctx.put id (json.Marshal { ID := id, Content := content }).1) := by
  simp only [AddData, DataExists_of_read ctx id hg, hs, Option.isSome_none, json.Marshal,
    Stub.PutState]
  cases ctx.putErr id _ <;> rfl

theorem UpdateData_of_getErr (ctx : Stub) (id content : GoString) (e : StubError)
    (h : ctx.getErr id = some e) : UpdateData ctx id content = (some (readFailure e), ctx) := by
  simp only [UpdateData, DataExists_of_getErr ctx id e h]

theorem UpdateData_of_absent (ctx : Stub) (id content : GoString)
    (hg : ctx.getErr id = none) (hs : ctx.state id = none) :
    UpdateData ctx id content = (some (notFound id), ctx) := by
  simp only [UpdateData, DataExists_of_read ctx id hg, hs, Option.isSome_none]

theorem UpdateData_of_present (ctx : Stub) (id content : GoString) (v : List Byte)
    (hg : ctx.getErr id = none) (hs : ctx.state id = some v) :
    UpdateData ctx id content
      = match ctx.putErr id (json.Marshal { ID := id, Content := content }).1 with
        | some e => (some (GoError.stub e), ctx)
        | none => (none, ctx.put id (json.Marshal { ID := id, Content := content }).1) := by
  simp only [UpdateData, DataExists_of_read ctx id hg, hs, Option.isSome_some, json.Marshal,
    Stub.PutState]
  cases ctx.putErr id _ <;> rfl

theorem DeleteData_of_getErr (ctx : Stub) (id : GoString) (e : StubError)
    (h : ctx.getErr id = some e) : DeleteData ctx id = (some (readFailure e), ctx) := by
  simp only [DeleteData, DataExists_of_getErr ctx id e h]

theorem DeleteData_of_absent (ctx : Stub) (id : GoString)
    (hg : ctx.getErr id = none) (hs : ctx.state id = none) :
    DeleteData ctx id = (some (notFound id), ctx) := by
  simp only [DeleteData, DataExists_of_read ctx id hg, hs, Option.isSome_none]

theorem DeleteData_of_present (ctx : Stub) (id : GoString) (v : List Byte)
    (hg : ctx.getErr id = none) (hs : ctx.state id = some v) :
    DeleteData ctx id
      = match ctx.delErr id with
        | some e => (some (GoError.stub e), ctx)
        | none => (none, ctx.del id) := by
  simp only [DeleteData, DataExists_of_read ctx id hg, hs, Option.isSome_some, Stub.DelState]
  cases ctx.delErr id <;> rfl

/-- A successful `AddData`: the read succeeded, no value was stored under `id`, and the
store now holds the encoded record under `id`. -/
theorem AddData_success (ctx : Stub) (id content : GoString)
    (h : (AddData ctx id content).1 = none) :
    ctx.getErr id = none ∧ ctx.state id = none
      ∧ (AddData ctx id content).2
          = ctx.put id (json.Marshal { ID := id, Content := content }).1 := by
  cases hg : ctx.getErr id with
  | some e =>
    rw [AddData_of_getErr ctx id content e hg] at h
    exact Option.noConfusion h
  | none =>
    cases hs : ctx.state id with
    | some v =>
      rw [AddData_of_present ctx id content v hg hs] at h
      exact Option.noConfusion h
    | none =>
      rw [AddData_of_absent ctx id content hg hs] at h ⊢
      cases hp : ctx.putErr id (json.Marshal { ID := id, Content := content }).1 with
      | some e =>
        rw [hp] at h
        exact Option.noConfusion h
      | none => exact ⟨rfl, rfl, rfl⟩

/-- A successful `UpdateData`: the read succeeded, a value was stored under `id`, and
the store now holds the encoded record under `id`. -/
theorem UpdateData_success (ctx : Stub) (id content : GoString)
    (h : (UpdateData ctx id content).1 = none) :
    ctx.getErr id = none ∧ ctx.state id ≠ none
      ∧ (UpdateData ctx id content).2
          = ctx.put id (json.Marshal { ID := id, Content := content }).1 := by
  cases hg : ctx.getErr id with
  | some e =>
    rw [UpdateData_of_getErr ctx id content e hg] at h
    exact Option.noConfusion h
  | none =>
    cases hs : ctx.state id with
    | none =>
      rw [UpdateData_of_absent ctx id content hg hs] at h
      exact Option.noConfusion h
    | some v =>
      rw [UpdateData_of_present ctx id content v hg hs] at h ⊢
      cases hp : ctx.putErr id (json.Marshal { ID := id, Content := content }).1 with
      | some e =>
        rw [hp] at h
        exact Option.noConfusion h
      | none => exact ⟨rfl, Option.noConfusion, rfl⟩

/-- A successful `DeleteData`: the read succeeded, a value was stored under `id`, and
the store now holds no value under `id`. -/
theorem DeleteData_success (ctx : Stub) (id : GoString)
    (h : (DeleteData ctx id).1 = none) :
    ctx.getErr id = none ∧ ctx.state id ≠ none ∧ (DeleteData ctx id).2 = ctx.del id := by
  cases hg : ctx.getErr id with
  | some e =>
    rw [DeleteData_of_getErr ctx id e hg] at h
    exact Option.noConfusion h
  | none =>
    cases hs : ctx.state id with
    | none =>
      rw [DeleteData_of_absent ctx id hg hs] at h
      exact Option.noConfusion h
    | some v =>
      rw [DeleteData_of_present ctx id v hg hs] at h ⊢
      cases hp : ctx.delErr id with
      | some e =>
        rw [hp] at h
        exact Option.noConfusion h
      | none => exact ⟨rfl, Option.noConfusion, rfl⟩

/-- Reading a key that holds an encoded record succeeds and returns the record with
its fields coerced to valid UTF-8. -/
theorem ReadData_of_Marshal (ctx : Stub) (id : GoString) (v : DataRecord)
    (hg : ctx.getErr id = none) (hs : ctx.state id = some (json.Marshal v).1) :
    ReadData ctx id
      = (some { ID := utf8.toValid v.ID, Content := utf8.toValid v.Content }, none) := by
  simp only [ReadData, Stub.GetState, hg, hs, json.Unmarshal_Marshal v]

theorem ReadData_of_absent (ctx : Stub) (id : GoString)
    (hg : ctx.getErr id = none) (hs : ctx.state id = none) :
    ReadData ctx id = (none, some (notFound id)) := by
  simp only [ReadData, Stub.GetState, hg, hs]

theorem ReadData_of_getErr (ctx : Stub) (id : GoString) (e : StubError)
    (hg : ctx.getErr id = some e) : ReadData ctx id = (none, some (readFailure e)) := by
  simp only [ReadData, Stub.GetState, hg]

/-! ## Claims -/

/-- C1 (amended): for an `id` and a `content` that are valid UTF-8, if `AddData(id, content)`
succeeds then `ReadData(id)` on the resulting store succeeds and returns the record
with `ID = id` and `Content = content`. -/
theorem AddData_ReadData (ctx : Stub) (id content : GoString)
    (hid : utf8.ValidString id = true) (hc : utf8.ValidString content = true)
    (h : (AddData ctx id content).1 = none) :
    ReadData (AddData ctx id content).2 id = (some { ID := id, Content := content }, none) := by
  obtain ⟨hg, -, hctx⟩ := AddData_success ctx id content h
  rw [hctx, ReadData_of_Marshal (ctx.put id (json.Marshal { ID := id, Content := content }).1)
    id { ID := id, Content := content } hg (Stub.put_state_same ctx id _),
    utf8.toValid_of_valid id hid,
    utf8.toValid_of_valid content hc]

/-- Witness of C1 (amended): the record `7` with the content `olá` on the empty
store. -/
theorem AddData_ReadData_witness :
    (AddData Stub.new (utf8.ofString "7") (utf8.ofString "olá")).1 = none
      ∧ ReadData (AddData Stub.new (utf8.ofString "7") (utf8.ofString "olá")).2
          (utf8.ofString "7")
        = (some { ID := utf8.ofString "7", Content := utf8.ofString "olá" }, none) :=
  ⟨by decide, AddData_ReadData Stub.new (utf8.ofString "7") (utf8.ofString "olá")
    (by decide) (by decide) (by decide)⟩

/-- C1 (counterexample): with the content the single byte `0xFF`, which is not valid
UTF-8, `AddData` succeeds on the empty store, and `ReadData` then returns the content
U+FFFD (three bytes), not the content that was added. -/
theorem AddData_ReadData_counterexample :
    (AddData Stub.new [0x61] [0xFF]).1 = none
      ∧ ReadData (AddData Stub.new [0x61] [0xFF]).2 [0x61]
          = (some { ID := [0x61], Content := [0xEF, 0xBF, 0xBD] }, none)
      ∧ ReadData (AddData Stub.new [0x61] [0xFF]).2 [0x61]
          ≠ (some { ID := [0x61], Content := [0xFF] }, none) := by
  decide

/-- C2: on a store whose read of `id` succeeds and that holds a value under `id`,
`AddData(id, content)` fails, for every content, with the error whose message is
`o registro <id> já existe`; it does not succeed. -/
theorem AddData_AlreadyExists (ctx : Stub) (id content : GoString) (v : List Byte)
    (hread : ctx.getErr id = none) (hv : ctx.state id = some v) :
    (AddData ctx id content).1
        = some (GoError.Errorf (utf8.ofString "o registro " ++ id ++ utf8.ofString " já existe"))
      ∧ (AddData ctx id content).1 ≠ none := by
  rw [AddData_of_present ctx id content v hread hv]
  exact ⟨rfl, Option.noConfusion⟩

/-- Witness of C2: a second `AddData` of the record `1`. -/
theorem AddData_AlreadyExists_witness :
    (AddData (Stub.new.put [0x31] [0x7B, 0x7D]) [0x31] [0x61]).1
        = some (GoError.Errorf
            (utf8.ofString "o registro " ++ [0x31] ++ utf8.ofString " já existe"))
      ∧ (AddData (Stub.new.put [0x31] [0x7B, 0x7D]) [0x31] [0x61]).1 ≠ none :=
  AddData_AlreadyExists (Stub.new.put [0x31] [0x7B, 0x7D]) [0x31] [0x61] [0x7B, 0x7D]
    (by decide) (by decide)

/-- C3: on a store whose read of `id` succeeds and that holds no value under `id`, each
of `UpdateData(id, c)`, `DeleteData(id)` and `ReadData(id)` fails with the error whose
message is `o registro <id> não existe`. -/
theorem absent_NotFound (ctx : Stub) (id c : GoString)
    (hread : ctx.getErr id = none) (hv : ctx.state id = none) :
    (UpdateData ctx id c).1
        = some (GoError.Errorf (utf8.ofString "o registro " ++ id ++ utf8.ofString " não existe"))
      ∧ (DeleteData ctx id).1
        = some (GoError.Errorf (utf8.ofString "o registro " ++ id ++ utf8.ofString " não existe"))
      ∧ ReadData ctx id
        = (none, some (GoError.Errorf
            (utf8.ofString "o registro " ++ id ++ utf8.ofString " não existe"))) := by
  rw [UpdateData_of_absent ctx id c hread hv, DeleteData_of_absent ctx id hread hv,
    ReadData_of_absent ctx id hread hv]
  exact ⟨rfl, rfl, rfl⟩

/-- Witness of C3: the record `9` on the empty store. -/
theorem absent_NotFound_witness :
    (UpdateData Stub.new [0x39] [0x61]).1
        = some (GoError.Errorf
            (utf8.ofString "o registro " ++ [0x39] ++ utf8.ofString " não existe"))
      ∧ (DeleteData Stub.new [0x39]).1
        = some (GoError.Errorf
            (utf8.ofString "o registro " ++ [0x39] ++ utf8.ofString " não existe"))
      ∧ ReadData Stub.new [0x39]
        = (none, some (GoError.Errorf
            (utf8.ofString "o registro " ++ [0x39] ++ utf8.ofString " não existe"))) :=
  absent_NotFound Stub.new [0x39] [0x61] (by decide) (by decide)

/-- C4: if `DeleteData(id)` succeeds then, on the resulting store, `DataExists(id)`
returns false (without error) and `ReadData(id)` fails with the error whose message is
`o registro <id> não existe`. -/
theorem DeleteData_then_absent (ctx : Stub) (id : GoString)
    (h : (DeleteData ctx id).1 = none) :
    DataExists (DeleteData ctx id).2 id = (false, none)
      ∧ ReadData (DeleteData ctx id).2 id
        = (none, some (GoError.Errorf
            (utf8.ofString "o registro " ++ id ++ utf8.ofString " não existe"))) := by
  obtain ⟨hg, -, hctx⟩ := DeleteData_success ctx id h
  rw [hctx, DataExists_of_read (ctx.del id) id hg, Stub.del_state_same,
    ReadData_of_absent (ctx.del id) id hg (Stub.del_state_same ctx id)]
  exact ⟨rfl, rfl⟩

/-- Witness of C4: deleting the record `1` from a store that holds it. -/
theorem DeleteData_then_absent_witness :
    (DeleteData (Stub.new.put [0x31] [0x7B, 0x7D]) [0x31]).1 = none
      ∧ DataExists (DeleteData (Stub.new.put [0x31] [0x7B, 0x7D]) [0x31]).2 [0x31]
          = (false, none)
      ∧ ReadData (DeleteData (Stub.new.put [0x31] [0x7B, 0x7D]) [0x31]).2 [0x31]
        = (none, some (GoError.Errorf
            (utf8.ofString "o registro " ++ [0x31] ++ utf8.ofString " não existe"))) :=
  ⟨by decide, DeleteData_then_absent (Stub.new.put [0x31] [0x7B, 0x7D]) [0x31] (by decide)⟩

/-- C5 (amended): for an `id` and a `newContent` that are valid UTF-8, if
`UpdateData(id, newContent)` succeeds then `ReadData(id)` on the resulting store returns
the record with `ID = id` and `Content = newContent`, whatever value was stored under
`id` before. -/
theorem UpdateData_ReadData (ctx : Stub) (id newContent : GoString)
    (hid : utf8.ValidString id = true) (hc : utf8.ValidString newContent = true)
    (h : (UpdateData ctx id newContent).1 = none) :
    ReadData (UpdateData ctx id newContent).2 id
      = (some { ID := id, Content := newContent }, none) := by
  obtain ⟨hg, -, hctx⟩ := UpdateData_success ctx id newContent h
  rw [hctx,
    ReadData_of_Marshal (ctx.put id (json.Marshal { ID := id, Content := newContent }).1)
      id { ID := id, Content := newContent } hg (Stub.put_state_same ctx id _),
    utf8.toValid_of_valid id hid,
    utf8.toValid_of_valid newContent hc]

/-- Witness of C5 (amended): the value `{}` stored under `1` is overwritten. -/
theorem UpdateData_ReadData_witness :
    (UpdateData (Stub.new.put [0x31] [0x7B, 0x7D]) [0x31] (utf8.ofString "não")).1 = none
      ∧ ReadData (UpdateData (Stub.new.put [0x31] [0x7B, 0x7D]) [0x31]
          (utf8.ofString "não")).2 [0x31]
        = (some { ID := [0x31], Content := utf8.ofString "não" }, none) :=
  ⟨by decide, UpdateData_ReadData (Stub.new.put [0x31] [0x7B, 0x7D]) [0x31]
    (utf8.ofString "não") (by decide) (by decide) (by decide)⟩

/-- C5 (counterexample): with the new content the two bytes `0xC3 0x28`, which are not
valid UTF-8, `UpdateData` succeeds on a store that holds the record `1`, and `ReadData`
then returns the content U+FFFD followed by `(`, not the new content. -/
theorem UpdateData_ReadData_counterexample :
    (UpdateData (AddData Stub.new [0x31] [0x61]).2 [0x31] [0xC3, 0x28]).1 = none
      ∧ ReadData (UpdateData (AddData Stub.new [0x31] [0x61]).2 [0x31] [0xC3, 0x28]).2 [0x31]
          = (some { ID := [0x31], Content := [0xEF, 0xBF, 0xBD, 0x28] }, none)
      ∧ ReadData (UpdateData (AddData Stub.new [0x31] [0x61]).2 [0x31] [0xC3, 0x28]).2 [0x31]
          ≠ (some { ID := [0x31], Content := [0xC3, 0x28] }, none) := by
  decide

/-- C7: if a first `DeleteData(id)` succeeds, then a second `DeleteData(id)` on the
resulting store fails with the error whose message is `o registro <id> não existe` and
leaves the store as it was after the first call. -/
theorem DeleteData_twice (ctx : Stub) (id : GoString) (h : (DeleteData ctx id).1 = none) :
    DeleteData (DeleteData ctx id).2 id
      = (some (GoError.Errorf
            (utf8.ofString "o registro " ++ id ++ utf8.ofString " não existe")),
          (DeleteData ctx id).2) := by
  obtain ⟨hg, -, hctx⟩ := DeleteData_success ctx id h
  rw [hctx, DeleteData_of_absent (ctx.del id) id hg (Stub.del_state_same ctx id)]
  rfl

/-- Witness of C7: deleting the record `1` twice. -/
theorem DeleteData_twice_witness :
    (DeleteData (Stub.new.put [0x31] [0x7B, 0x7D]) [0x31]).1 = none
      ∧ DeleteData (DeleteData (Stub.new.put [0x31] [0x7B, 0x7D]) [0x31]).2 [0x31]
        = (some (GoError.Errorf
              (utf8.ofString "o registro " ++ [0x31] ++ utf8.ofString " não existe")),
            (DeleteData (Stub.new.put [0x31] [0x7B, 0x7D]) [0x31]).2) :=
  ⟨by decide, DeleteData_twice (Stub.new.put [0x31] [0x7B, 0x7D]) [0x31] (by decide)⟩

/-- C8: `DataExists(id)` returns true, without error, exactly when the read of `id`
succeeds and a value is present; it returns false, without error, exactly when the read
succeeds and no value is present; and it returns an error exactly when the read of `id`
fails, in which case the result is false. -/
theorem DataExists_spec (ctx : Stub) (id : GoString) :
    (DataExists ctx id = (true, none) ↔ ctx.getErr id = none ∧ ctx.state id ≠ none)
      ∧ (DataExists ctx id = (false, none) ↔ ctx.getErr id = none ∧ ctx.state id = none)
      ∧ ((DataExists ctx id).2 ≠ none ↔ ctx.getErr id ≠ none)
      ∧ ((DataExists ctx id).2 ≠ none → (DataExists ctx id).1 = false) := by
  cases hg : ctx.getErr id with
  | some e =>
    rw [DataExists_of_getErr ctx id e hg]
    simp
  | none =>
    rw [DataExists_of_read ctx id hg]
    cases hs : ctx.state id <;> simp

/-! ## InitLedger -/

/-- The three outcomes of `InitLedger`: the first write fails, the second write fails
after the first was made, or both records are written. -/
theorem InitLedger_eq (ctx : Stub) :
    InitLedger ctx
      = match ctx.putErr (utf8.ofString "1")
            (json.Marshal
              { ID := utf8.ofString "1", Content := utf8.ofString "Texto de exemplo 1" }).1 with
        | some e => (some (insertFailure e), ctx)
        | none =>
          match ctx.putErr (utf8.ofString "2")
              (json.Marshal
                { ID := utf8.ofString "2", Content := utf8.ofString "Texto de exemplo 2" }).1 with
          | some e =>
            (some (insertFailure e),
              ctx.put (utf8.ofString "1")
                (json.Marshal
                  { ID := utf8.ofString "1", Content := utf8.ofString "Texto de exemplo 1" }).1)
          | none =>
            (none,
              (ctx.put (utf8.ofString "1")
                (json.Marshal
                  { ID := utf8.ofString "1", Content := utf8.ofString "Texto de exemplo 1" }).1).put
                (utf8.ofString "2")
                (json.Marshal
                  { ID := utf8.ofString "2", Content := utf8.ofString "Texto de exemplo 2" }).1)
      := by
  simp only [InitLedger, seedData, InitLedger.loop, json.Marshal, Stub.PutState]
  cases h1 : ctx.putErr (utf8.ofString "1") _ with
  | some e => rfl
  | none =>
    simp only [Stub.put]
    cases h2 : ctx.putErr (utf8.ofString "2") _ with
    | some e => rfl
    | none => rfl

theorem InitLedger_success (ctx : Stub) (h : (InitLedger ctx).1 = none) :
    (InitLedger ctx).2
      = (ctx.put (utf8.ofString "1")
          (json.Marshal
            { ID := utf8.ofString "1", Content := utf8.ofString "Texto de exemplo 1" }).1).put
          (utf8.ofString "2")
          (json.Marshal
            { ID := utf8.ofString "2", Content := utf8.ofString "Texto de exemplo 2" }).1 := by
  rw [InitLedger_eq] at h ⊢
  cases h1 : ctx.putErr (utf8.ofString "1")
      (json.Marshal
        { ID := utf8.ofString "1", Content := utf8.ofString "Texto de exemplo 1" }).1 with
  | some e =>
    rw [h1] at h
    exact Option.noConfusion h
  | none =>
    rw [h1] at h
    cases h2 : ctx.putErr (utf8.ofString "2")
        (json.Marshal
          { ID := utf8.ofString "2", Content := utf8.ofString "Texto de exemplo 2" }).1 with
    | some e =>
      rw [h2] at h
      exact Option.noConfusion h
    | none => rfl

/-- C6 (amended): for every starting store whose reads of the keys `1` and `2` succeed,
whatever it holds under these keys: if `InitLedger` succeeds, then `ReadData("1")`
returns the record with ID `1` and Content `Texto de exemplo 1`, and `ReadData("2")`
returns the record with ID `2` and Content `Texto de exemplo 2`. -/
theorem InitLedger_ReadData (ctx : Stub)
    (hr1 : ctx.getErr (utf8.ofString "1") = none)
    (hr2 : ctx.getErr (utf8.ofString "2") = none)
    (h : (InitLedger ctx).1 = none) :
    ReadData (InitLedger ctx).2 (utf8.ofString "1")
        = (some { ID := utf8.ofString "1", Content := utf8.ofString "Texto de exemplo 1" }, none)
      ∧ ReadData (InitLedger ctx).2 (utf8.ofString "2")
        = (some
          { ID := utf8.ofString "2", Content := utf8.ofString "Texto de exemplo 2" }, none) := by
  have hs := InitLedger_success ctx h
  have hget : (InitLedger ctx).2.getErr = ctx.getErr := by rw [hs]; rfl
  have h1 : (InitLedger ctx).2.state (utf8.ofString "1")
      = some (json.Marshal
          { ID := utf8.ofString "1", Content := utf8.ofString "Texto de exemplo 1" }).1 := by
    rw [hs, Stub.put_state_other _ _ _ _ (by decide)]
    exact Stub.put_state_same _ _ _
  have h2 : (InitLedger ctx).2.state (utf8.ofString "2")
      = some (json.Marshal
          { ID := utf8.ofString "2", Content := utf8.ofString "Texto de exemplo 2" }).1 := by
    rw [hs]
    exact Stub.put_state_same _ _ _
  rw [ReadData_of_Marshal (InitLedger ctx).2 (utf8.ofString "1") _ (by rw [hget]; exact hr1) h1,
    ReadData_of_Marshal (InitLedger ctx).2 (utf8.ofString "2") _ (by rw [hget]; exact hr2) h2]
  exact ⟨by rw [utf8.toValid_of_valid _ (by decide), utf8.toValid_of_valid _ (by decide)],
    by rw [utf8.toValid_of_valid _ (by decide), utf8.toValid_of_valid _ (by decide)]⟩

/-- Witness of C6 (amended): a store that already holds `{}` under the key `1`. -/
theorem InitLedger_ReadData_witness :
    (InitLedger (Stub.new.put [0x31] [0x7B, 0x7D])).1 = none
      ∧ ReadData (InitLedger (Stub.new.put [0x31] [0x7B, 0x7D])).2 (utf8.ofString "1")
        = (some { ID := utf8.ofString "1", Content := utf8.ofString "Texto de exemplo 1" }, none)
      ∧ ReadData (InitLedger (Stub.new.put [0x31] [0x7B, 0x7D])).2 (utf8.ofString "2")
        = (some { ID := utf8.ofString "2", Content := utf8.ofString "Texto de exemplo 2" }, none) :=
  ⟨by decide, InitLedger_ReadData (Stub.new.put [0x31] [0x7B, 0x7D]) (by decide) (by decide)
    (by decide)⟩

/-- C6 (counterexample): on the empty store whose writes succeed and whose reads all
fail with the error `x`, `InitLedger` succeeds and `ReadData("1")` then returns no
record but the read failure. -/
theorem InitLedger_ReadData_counterexample :
    (InitLedger (Stub.empty (fun _ => some [0x78]) (fun _ _ => none) (fun _ => none))).1 = none
      ∧ ReadData
          (InitLedger (Stub.empty (fun _ => some [0x78]) (fun _ _ => none) (fun _ => none))).2
          (utf8.ofString "1")
        = (none, some (GoError.Errorf (utf8.ofString "falha ao ler do ledger: x"))) := by
  decide

/-! ## The store after a transaction -/

theorem AddData_failure (ctx : Stub) (id content : GoString)
    (h : (AddData ctx id content).1 ≠ none) : (AddData ctx id content).2 = ctx := by
  cases hg : ctx.getErr id with
  | some e => rw [AddData_of_getErr ctx id content e hg]
  | none =>
    cases hs : ctx.state id with
    | some v => rw [AddData_of_present ctx id content v hg hs]
    | none =>
      rw [AddData_of_absent ctx id content hg hs] at h ⊢
      cases hp : ctx.putErr id (json.Marshal { ID := id, Content := content }).1 with
      | some e => rfl
      | none =>
        rw [hp] at h
        exact absurd rfl h

theorem UpdateData_failure (ctx : Stub) (id content : GoString)
    (h : (UpdateData ctx id content).1 ≠ none) : (UpdateData ctx id content).2 = ctx := by
  cases hg : ctx.getErr id with
  | some e => rw [UpdateData_of_getErr ctx id content e hg]
  | none =>
    cases hs : ctx.state id with
    | none => rw [UpdateData_of_absent ctx id content hg hs]
    | some v =>
      rw [UpdateData_of_present ctx id content v hg hs] at h ⊢
      cases hp : ctx.putErr id (json.Marshal { ID := id, Content := content }).1 with
      | some e => rfl
      | none =>
        rw [hp] at h
        exact absurd rfl h

theorem DeleteData_failure (ctx : Stub) (id : GoString)
    (h : (DeleteData ctx id).1 ≠ none) : (DeleteData ctx id).2 = ctx := by
  cases hg : ctx.getErr id with
  | some e => rw [DeleteData_of_getErr ctx id e hg]
  | none =>
    cases hs : ctx.state id with
    | none => rw [DeleteData_of_absent ctx id hg hs]
    | some v =>
      rw [DeleteData_of_present ctx id v hg hs] at h ⊢
      cases hp : ctx.delErr id with
      | some e => rfl
      | none =>
        rw [hp] at h
        exact absurd rfl h

/-- What `InitLedger` writes: the seed record `1` when its write succeeds, and the
seed record `2` when both writes succeed. -/
theorem InitLedger_writes_iff (ctx : Stub) (id : GoString) :
    InitLedger.writes ctx id = true
      ↔ (ctx.putErr (utf8.ofString "1")
            (json.Marshal
              { ID := utf8.ofString "1", Content := utf8.ofString "Texto de exemplo 1" }).1
            = none
          ∧ (id = utf8.ofString "1"
            ∨ (id = utf8.ofString "2"
              ∧ ctx.putErr (utf8.ofString "2")
                  (json.Marshal
                    { ID := utf8.ofString "2", Content := utf8.ofString "Texto de exemplo 2" }).1
                = none))) := by
  unfold InitLedger.writes
  rw [InitLedger_eq (Stub.empty ctx.getErr ctx.putErr ctx.delErr)]
  simp only [Stub.empty]
  cases h1 : ctx.putErr (utf8.ofString "1")
      (json.Marshal
        { ID := utf8.ofString "1", Content := utf8.ofString "Texto de exemplo 1" }).1 with
  | some e => simp
  | none =>
    have h12 : ¬ utf8.ofString "1" = utf8.ofString "2" := by decide
    cases h2 : ctx.putErr (utf8.ofString "2")
        (json.Marshal
          { ID := utf8.ofString "2", Content := utf8.ofString "Texto de exemplo 2" }).1 with
    | some e =>
      simp only [Stub.put]
      by_cases hid : id = utf8.ofString "1"
      · simp [hid]
      · simp [hid]
    | none =>
      simp only [Stub.put]
      by_cases hid2 : id = utf8.ofString "2"
      · simp [hid2]
      · by_cases hid : id = utf8.ofString "1"
        · simp [hid, h12]
        · simp [hid, hid2]

/-- The value under `id` after `InitLedger`, by what `InitLedger` writes. -/
theorem InitLedger_state (ctx : Stub) (id : GoString) :
    (InitLedger.writes ctx id = true → (InitLedger ctx).2.state id ≠ none)
      ∧ (InitLedger.writes ctx id = false → (InitLedger ctx).2.state id = ctx.state id) := by
  unfold InitLedger.writes
  rw [InitLedger_eq ctx, InitLedger_eq (Stub.empty ctx.getErr ctx.putErr ctx.delErr)]
  simp only [Stub.empty]
  cases h1 : ctx.putErr (utf8.ofString "1")
      (json.Marshal
        { ID := utf8.ofString "1", Content := utf8.ofString "Texto de exemplo 1" }).1 with
  | some e => simp
  | none =>
    cases h2 : ctx.putErr (utf8.ofString "2")
        (json.Marshal
          { ID := utf8.ofString "2", Content := utf8.ofString "Texto de exemplo 2" }).1 with
    | some e =>
      simp only [Stub.put]
      by_cases hid : id = utf8.ofString "1"
      · simp [hid]
      · simp [hid]
    | none =>
      simp only [Stub.put]
      by_cases hid2 : id = utf8.ofString "2"
      · simp [hid2]
      · by_cases hid : id = utf8.ofString "1"
        · have h12 : ¬ utf8.ofString "1" = utf8.ofString "2" := by decide
          simp [hid, h12]
        · simp [hid, hid2]

/-- A transaction that adds a record under `id` leaves a value under `id`. -/
theorem Op.run_adds (ctx : Stub) (op : Op) (id : GoString) (h : op.adds ctx id = true) :
    (op.run ctx).2.state id ≠ none := by
  cases op with
  | initLedger => exact (InitLedger_state ctx id).1 h
  | addData i content =>
    simp only [Op.adds, Bool.and_eq_true, decide_eq_true_eq] at h
    obtain ⟨rfl, hok⟩ := h
    obtain ⟨-, -, hctx⟩ := AddData_success ctx i content hok
    simp only [Op.run]
    rw [hctx, Stub.put_state_same]
    exact Option.noConfusion
  | updateData i c => simp [Op.adds] at h
  | deleteData i => simp [Op.adds] at h
  | readData i => simp [Op.adds] at h
  | dataExists i => simp [Op.adds] at h

/-- A successful `DeleteData(id)` leaves no value under `id`. -/
theorem Op.run_deletes (ctx : Stub) (op : Op) (id : GoString) (h : op.deletes ctx id = true) :
    (op.run ctx).2.state id = none := by
  cases op with
  | deleteData i =>
    simp only [Op.deletes, Bool.and_eq_true, decide_eq_true_eq] at h
    obtain ⟨rfl, hok⟩ := h
    obtain ⟨-, -, hctx⟩ := DeleteData_success ctx i hok
    simp only [Op.run]
    rw [hctx, Stub.del_state_same]
  | initLedger => simp [Op.deletes] at h
  | addData i c => simp [Op.deletes] at h
  | updateData i c => simp [Op.deletes] at h
  | readData i => simp [Op.deletes] at h
  | dataExists i => simp [Op.deletes] at h

/-- A transaction that neither adds a record under `id` nor deletes it leaves `id`
present if and only if it was present. -/
theorem Op.run_other (ctx : Stub) (op : Op) (id : GoString) (ha : op.adds ctx id = false)
    (hd : op.deletes ctx id = false) :
    (op.run ctx).2.state id ≠ none ↔ ctx.state id ≠ none := by
  cases op with
  | initLedger =>
    simp only [Op.run]
    rw [(InitLedger_state ctx id).2 ha]
  | addData i content =>
    simp only [Op.run]
    by_cases hok : (AddData ctx i content).1 = none
    · have hne : i ≠ id := by
        intro hi
        simp [Op.adds, hi, hok] at ha
        exact ha (hi ▸ hok)
      obtain ⟨-, -, hctx⟩ := AddData_success ctx i content hok
      rw [hctx, Stub.put_state_other _ _ _ _ (Ne.symm hne)]
    · rw [AddData_failure ctx i content hok]
  | updateData i content =>
    simp only [Op.run]
    by_cases hok : (UpdateData ctx i content).1 = none
    · obtain ⟨-, hpres, hctx⟩ := UpdateData_success ctx i content hok
      rw [hctx]
      by_cases hi : id = i
      · subst hi
        rw [Stub.put_state_same]
        exact ⟨fun _ => hpres, fun _ => Option.noConfusion⟩
      · rw [Stub.put_state_other _ _ _ _ hi]
    · rw [UpdateData_failure ctx i content hok]
  | deleteData i =>
    simp only [Op.run]
    by_cases hok : (DeleteData ctx i).1 = none
    · have hne : i ≠ id := by
        intro hi
        simp [Op.deletes, hi] at hd
        exact hd (hi ▸ hok)
      obtain ⟨-, -, hctx⟩ := DeleteData_success ctx i hok
      rw [hctx, Stub.del_state_other _ _ _ (Ne.symm hne)]
    · rw [DeleteData_failure ctx i hok]
  | readData i => simp only [Op.run]
  | dataExists i => simp only [Op.run]

theorem runAll_append (ctx : Stub) (xs ys : List Op) :
    runAll ctx (xs ++ ys) = runAll (runAll ctx xs) ys := by
  induction xs generalizing ctx with
  | nil => rfl
  | cons x xs ih => exact ih (x.run ctx).2

/-! ## Sequences of transactions -/

theorem eq_nil_or_append_singleton (l : List Op) :
    l = [] ∨ ∃ init last, l = init ++ [last] := by
  rcases List.eq_nil_or_concat l with h | ⟨init, last, h⟩
  · exact Or.inl h
  · exact Or.inr ⟨init, last, by rw [h, List.concat_eq_append]⟩

theorem addedNotDeleted_nil (adds : Stub → Op → GoString → Bool) (ctx0 : Stub)
    (id : GoString) : ¬ addedNotDeleted adds ctx0 [] id := by
  rintro ⟨pre, op, post, heq, -, -⟩
  cases pre <;> simp at heq

theorem addedNotDeleted_concat (adds : Stub → Op → GoString → Bool) (ctx0 : Stub)
    (ops : List Op) (x : Op) (id : GoString) :
    addedNotDeleted adds ctx0 (ops ++ [x]) id
      ↔ adds (runAll ctx0 ops) x id = true
        ∨ (addedNotDeleted adds ctx0 ops id ∧ x.deletes (runAll ctx0 ops) id = false) := by
  constructor
  · rintro ⟨pre, op, post, heq, ha, hnd⟩
    rcases eq_nil_or_append_singleton post with rfl | ⟨post1, y, rfl⟩
    · obtain ⟨h1, h2⟩ := List.append_inj' heq rfl
      subst h1
      simp only [List.cons.injEq, and_true] at h2
      subst h2
      exact Or.inl ha
    · have heq2 : ops ++ [x] = (pre ++ op :: post1) ++ [y] := by
        rw [heq]
        simp
      obtain ⟨h1, h2⟩ := List.append_inj' heq2 rfl
      simp only [List.cons.injEq, and_true] at h2
      subst h2
      refine Or.inr ⟨⟨pre, op, post1, h1, ha, ?_⟩, ?_⟩
      · intro pre2 op2 post2 h
        exact hnd pre2 op2 (post2 ++ [x]) (by rw [h]; simp)
      · rw [h1]
        exact hnd post1 x [] rfl
  · rintro (ha | ⟨⟨pre, op, post, heq, ha, hnd⟩, hdel⟩)
    · exact ⟨ops, x, [], rfl, ha, fun pre2 op2 post2 h => by cases pre2 <;> simp at h⟩
    · refine ⟨pre, op, post ++ [x], by rw [heq]; simp, ha, ?_⟩
      intro pre2 op2 post2 h
      rcases eq_nil_or_append_singleton post2 with rfl | ⟨p2, z, rfl⟩
      · obtain ⟨h1, h2⟩ := List.append_inj' h rfl
        simp only [List.cons.injEq, and_true] at h2
        subst h1 h2
        rw [← heq]
        exact hdel
      · have h3 : post ++ [x] = (pre2 ++ op2 :: p2) ++ [z] := by
          rw [h]
          simp
        obtain ⟨h1, -⟩ := List.append_inj' h3 rfl
        exact hnd pre2 op2 p2 h1

/-- From a store that holds no value under `id`: a value is present under `id` after the
sequence if and only if some transaction of the sequence added a record under `id` and
no successful `DeleteData(id)` came after it. -/
theorem runAll_state_iff (ctx0 : Stub) (id : GoString) (h0 : ctx0.state id = none)
    (ops : List Op) :
    (runAll ctx0 ops).state id ≠ none ↔ addedNotDeleted Op.adds ctx0 ops id := by
  induction ops using List.reverseRecOn with
  | nil =>
    constructor
    · intro h
      exact absurd h0 h
    · intro h
      exact absurd h (addedNotDeleted_nil _ _ _)
  | append_singleton ops x ih =>
    rw [addedNotDeleted_concat, runAll_append]
    show (x.run (runAll ctx0 ops)).2.state id ≠ none ↔ _
    cases ha : x.adds (runAll ctx0 ops) id with
    | true =>
      exact ⟨fun _ => Or.inl rfl, fun _ => Op.run_adds _ x id ha⟩
    | false =>
      cases hd : x.deletes (runAll ctx0 ops) id with
      | true =>
        constructor
        · intro h
          exact absurd (Op.run_deletes _ x id hd) h
        · rintro (h | ⟨-, h⟩)
          · exact Bool.noConfusion h
          · exact Bool.noConfusion h
      | false =>
        rw [Op.run_other _ x id ha hd, ih]
        constructor
        · intro h
          exact Or.inr ⟨h, rfl⟩
        · rintro (h | ⟨h, -⟩)
          · exact Bool.noConfusion h
          · exact h

/-- C9 (amended): for every sequence of transactions (`InitLedger`, `AddData`,
`UpdateData`, `DeleteData`, `ReadData`, `DataExists`) run from the empty store, and every
`id`: a record is present under `id` in the resulting store if and only if some
transaction of the sequence added it — a successful `AddData(id, _)`, or an `InitLedger`
that wrote a seed record under `id` — and no `DeleteData(id)` succeeded after that
transaction. -/
theorem record_exists_iff (getErr : GoString → Option StubError)
    (putErr : GoString → List Byte → Option StubError) (delErr : GoString → Option StubError)
    (ops : List Op) (id : GoString) :
    (runAll (Stub.empty getErr putErr delErr) ops).state id ≠ none
      ↔ addedNotDeleted Op.adds (Stub.empty getErr putErr delErr) ops id :=
  runAll_state_iff (Stub.empty getErr putErr delErr) id rfl ops

/-- C9 (counterexample): after the single transaction `InitLedger` on the empty store,
a record is present under the key `1` although no `AddData("1", _)` was run. -/
theorem record_exists_iff_counterexample :
    (runAll Stub.new [Op.initLedger]).state (utf8.ofString "1") ≠ none
      ∧ ¬ addedNotDeleted Op.addsData Stub.new [Op.initLedger] (utf8.ofString "1") := by
  refine ⟨by decide, ?_⟩
  rintro ⟨pre, op, post, heq, ha, -⟩
  rcases pre with _ | ⟨a, t⟩
  · simp only [List.nil_append, List.cons.injEq] at heq
    obtain ⟨rfl, -⟩ := heq
    exact Bool.noConfusion ha
  · simp at heq

/-! ## The stored values -/

theorem keyedByID_put (ctx : Stub) (k content : GoString) (h : keyedByID ctx) :
    keyedByID (ctx.put k (json.Marshal { ID := k, Content := content }).1) := by
  intro k2 v hv
  by_cases hk : k2 = k
  · subst hk
    rw [Stub.put_state_same] at hv
    exact ⟨content, (Option.some.inj hv).symm⟩
  · rw [Stub.put_state_other _ _ _ _ hk] at hv
    exact h k2 v hv

theorem keyedByID_del (ctx : Stub) (k : GoString) (h : keyedByID ctx) :
    keyedByID (ctx.del k) := by
  intro k2 v hv
  by_cases hk : k2 = k
  · subst hk
    rw [Stub.del_state_same] at hv
    exact Option.noConfusion hv
  · rw [Stub.del_state_other _ _ _ hk] at hv
    exact h k2 v hv

theorem keyedByID_InitLedger (ctx : Stub) (h : keyedByID ctx) :
    keyedByID (InitLedger ctx).2 := by
  rw [InitLedger_eq]
  cases h1 : ctx.putErr (utf8.ofString "1")
      (json.Marshal
        { ID := utf8.ofString "1", Content := utf8.ofString "Texto de exemplo 1" }).1 with
  | some e => exact h
  | none =>
    cases h2 : ctx.putErr (utf8.ofString "2")
        (json.Marshal
          { ID := utf8.ofString "2", Content := utf8.ofString "Texto de exemplo 2" }).1 with
    | some e => exact keyedByID_put ctx _ _ h
    | none => exact keyedByID_put _ _ _ (keyedByID_put ctx _ _ h)

theorem keyedByID_AddData (ctx : Stub) (id content : GoString) (h : keyedByID ctx) :
    keyedByID (AddData ctx id content).2 := by
  by_cases hok : (AddData ctx id content).1 = none
  · rw [(AddData_success ctx id content hok).2.2]
    exact keyedByID_put ctx id content h
  · rw [AddData_failure ctx id content hok]
    exact h

theorem keyedByID_UpdateData (ctx : Stub) (id content : GoString) (h : keyedByID ctx) :
    keyedByID (UpdateData ctx id content).2 := by
  by_cases hok : (UpdateData ctx id content).1 = none
  · rw [(UpdateData_success ctx id content hok).2.2]
    exact keyedByID_put ctx id content h
  · rw [UpdateData_failure ctx id content hok]
    exact h

theorem keyedByID_DeleteData (ctx : Stub) (id : GoString) (h : keyedByID ctx) :
    keyedByID (DeleteData ctx id).2 := by
  by_cases hok : (DeleteData ctx id).1 = none
  · rw [(DeleteData_success ctx id hok).2.2]
    exact keyedByID_del ctx id h
  · rw [DeleteData_failure ctx id hok]
    exact h

theorem keyedByID_run (ctx : Stub) (op : Op) (h : keyedByID ctx) : keyedByID (op.run ctx).2 := by
  cases op with
  | initLedger => exact keyedByID_InitLedger ctx h
  | addData i c => exact keyedByID_AddData ctx i c h
  | updateData i c => exact keyedByID_UpdateData ctx i c h
  | deleteData i => exact keyedByID_DeleteData ctx i h
  | readData i => exact h
  | dataExists i => exact h

theorem keyedByID_runAll (ops : List Op) :
    ∀ ctx : Stub, keyedByID ctx → keyedByID (runAll ctx ops) := by
  induction ops with
  | nil => exact fun _ h => h
  | cons x xs ih => exact fun ctx h => ih (x.run ctx).2 (keyedByID_run ctx x h)

/-- On a store whose values are encodings of records keyed by their ID, a successful
`ReadData(id)` returns a record whose ID is `id` coerced to valid UTF-8. -/
theorem ReadData_ID (ctx : Stub) (h : keyedByID ctx) (id : GoString) (r : DataRecord)
    (hr : ReadData ctx id = (some r, none)) : r.ID = utf8.toValid id := by
  cases hg : ctx.getErr id with
  | some e =>
    rw [ReadData_of_getErr ctx id e hg] at hr
    simp at hr
  | none =>
    cases hs : ctx.state id with
    | none =>
      rw [ReadData_of_absent ctx id hg hs] at hr
      simp at hr
    | some v =>
      obtain ⟨content, rfl⟩ := h id v hs
      rw [ReadData_of_Marshal ctx id _ hg hs] at hr
      simp only [Prod.mk.injEq, Option.some.injEq, and_true] at hr
      rw [← hr]

/-- C10 (amended): in every store reached from the empty store by `InitLedger`, `AddData`,
`UpdateData` and `DeleteData` (and the two reading transactions), the value stored under
each key `k` is the encoding of a record whose ID is `k`; consequently every successful
`ReadData(id)` returns a record whose ID is `id` coerced to valid UTF-8, hence `id` itself
when `id` is valid UTF-8; and `UpdateData` does not change the ID that `ReadData`
returns. -/
theorem reachable_keyedByID (getErr : GoString → Option StubError)
    (putErr : GoString → List Byte → Option StubError) (delErr : GoString → Option StubError)
    (ops : List Op) :
    keyedByID (runAll (Stub.empty getErr putErr delErr) ops)
      ∧ (∀ id r, ReadData (runAll (Stub.empty getErr putErr delErr) ops) id = (some r, none) →
          r.ID = utf8.toValid id ∧ (utf8.ValidString id = true → r.ID = id))
      ∧ (∀ id newContent r r2,
          ReadData (runAll (Stub.empty getErr putErr delErr) ops) id = (some r, none) →
          ReadData (UpdateData (runAll (Stub.empty getErr putErr delErr) ops) id newContent).2 id
            = (some r2, none) →
          r2.ID = r.ID) := by
  have hinv : keyedByID (runAll (Stub.empty getErr putErr delErr) ops) :=
    keyedByID_runAll ops _ (fun k v hv => Option.noConfusion hv)
  refine ⟨hinv, ?_, ?_⟩
  · intro id r hr
    have h := ReadData_ID _ hinv id r hr
    exact ⟨h, fun hv => by rw [h, utf8.toValid_of_valid id hv]⟩
  · intro id newContent r r2 hr hr2
    rw [ReadData_ID _ hinv id r hr,
      ReadData_ID _ (keyedByID_UpdateData _ id newContent hinv) id r2 hr2]

/-- C10 (counterexample): after `AddData` of a record whose id is the single byte `0xFF`,
which is not valid UTF-8, `ReadData` of that id succeeds and returns a record whose ID is
U+FFFD (three bytes), not the requested id. -/
theorem reachable_keyedByID_counterexample :
    ReadData (runAll Stub.new [Op.addData [0xFF] [0x61]]) [0xFF]
        = (some { ID := [0xEF, 0xBF, 0xBD], Content := [0x61] }, none)
      ∧ ¬ ∀ r,
          ReadData (runAll Stub.new [Op.addData [0xFF] [0x61]]) [0xFF] = (some r, none) →
          r.ID = [0xFF] := by
  refine ⟨by decide, fun h => ?_⟩
  exact absurd (h { ID := [0xEF, 0xBF, 0xBD], Content := [0x61] } (by decide)) (by decide)

/-! ## The calls of a transaction -/

theorem Stub.GetState_error (ctx : Stub) (id : GoString) (e : StubError)
    (h : (ctx.GetState id).2 = some e) : ctx.getErr id = some e := by
  unfold Stub.GetState at h
  cases hg : ctx.getErr id with
  | some e2 =>
    rw [hg] at h
    exact h
  | none =>
    rw [hg] at h
    exact Option.noConfusion h

theorem Stub.GetState_value (ctx : Stub) (id : GoString) (v : List Byte)
    (h : ctx.GetState id = (some v, none)) : ctx.getErr id = none ∧ ctx.state id = some v := by
  unfold Stub.GetState at h
  cases hg : ctx.getErr id with
  | some e =>
    rw [hg] at h
    exact Option.noConfusion (congrArg Prod.snd h)
  | none =>
    rw [hg] at h
    exact ⟨rfl, congrArg Prod.fst h⟩

theorem AddData_calls_of_getErr (ctx : Stub) (id content : GoString) (e : StubError)
    (h : ctx.getErr id = some e) : AddData.calls ctx id content = [Call.get id] := by
  simp only [AddData.calls, DataExists_of_getErr ctx id e h, DataExists.calls]

theorem AddData_calls_of_present (ctx : Stub) (id content : GoString) (v : List Byte)
    (hg : ctx.getErr id = none) (hs : ctx.state id = some v) :
    AddData.calls ctx id content = [Call.get id] := by
  simp only [AddData.calls, DataExists_of_read ctx id hg, hs, Option.isSome_some,
    DataExists.calls]

theorem AddData_calls_of_absent (ctx : Stub) (id content : GoString)
    (hg : ctx.getErr id = none) (hs : ctx.state id = none) :
    AddData.calls ctx id content
      = [Call.get id, Call.put id (json.Marshal { ID := id, Content := content }).1] := by
  simp only [AddData.calls, DataExists_of_read ctx id hg, hs, Option.isSome_none,
    DataExists.calls, json.Marshal, List.singleton_append]

theorem UpdateData_calls_of_getErr (ctx : Stub) (id content : GoString) (e : StubError)
    (h : ctx.getErr id = some e) : UpdateData.calls ctx id content = [Call.get id] := by
  simp only [UpdateData.calls, DataExists_of_getErr ctx id e h, DataExists.calls]

theorem UpdateData_calls_of_absent (ctx : Stub) (id content : GoString)
    (hg : ctx.getErr id = none) (hs : ctx.state id = none) :
    UpdateData.calls ctx id content = [Call.get id] := by
  simp only [UpdateData.calls, DataExists_of_read ctx id hg, hs, Option.isSome_none,
    DataExists.calls]

theorem UpdateData_calls_of_present (ctx : Stub) (id content : GoString) (v : List Byte)
    (hg : ctx.getErr id = none) (hs : ctx.state id = some v) :
    UpdateData.calls ctx id content
      = [Call.get id, Call.put id (json.Marshal { ID := id, Content := content }).1] := by
  simp only [UpdateData.calls, DataExists_of_read ctx id hg, hs, Option.isSome_some,
    DataExists.calls, json.Marshal, List.singleton_append]

theorem DeleteData_calls_of_getErr (ctx : Stub) (id : GoString) (e : StubError)
    (h : ctx.getErr id = some e) : DeleteData.calls ctx id = [Call.get id] := by
  simp only [DeleteData.calls, DataExists_of_getErr ctx id e h, DataExists.calls]

theorem DeleteData_calls_of_absent (ctx : Stub) (id : GoString)
    (hg : ctx.getErr id = none) (hs : ctx.state id = none) :
    DeleteData.calls ctx id = [Call.get id] := by
  simp only [DeleteData.calls, DataExists_of_read ctx id hg, hs, Option.isSome_none,
    DataExists.calls]

theorem DeleteData_calls_of_present (ctx : Stub) (id : GoString) (v : List Byte)
    (hg : ctx.getErr id = none) (hs : ctx.state id = some v) :
    DeleteData.calls ctx id = [Call.get id, Call.del id] := by
  simp only [DeleteData.calls, DataExists_of_read ctx id hg, hs, Option.isSome_some,
    DataExists.calls, List.singleton_append]

/-- The calls of `InitLedger`: the write of the record `1`, then the write of the record
`2` unless the first write fails. -/
theorem InitLedger_calls_eq (ctx : Stub) :
    InitLedger.calls ctx
      = match ctx.putErr (utf8.ofString "1")
            (json.Marshal
              { ID := utf8.ofString "1", Content := utf8.ofString "Texto de exemplo 1" }).1 with
        | some _ =>
          [Call.put (utf8.ofString "1")
            (json.Marshal
              { ID := utf8.ofString "1", Content := utf8.ofString "Texto de exemplo 1" }).1]
        | none =>
          [Call.put (utf8.ofString "1")
            (json.Marshal
              { ID := utf8.ofString "1", Content := utf8.ofString "Texto de exemplo 1" }).1,
           Call.put (utf8.ofString "2")
            (json.Marshal
              { ID := utf8.ofString "2", Content := utf8.ofString "Texto de exemplo 2" }).1]
      := by
  simp only [InitLedger.calls, seedData, InitLedger.loop.calls, json.Marshal, Stub.PutState]
  cases h1 : ctx.putErr (utf8.ofString "1") _ with
  | some e => rfl
  | none =>
    simp only [Stub.put]
    cases h2 : ctx.putErr (utf8.ofString "2") _ with
    | some e => rfl
    | none => rfl

/-- The store after `AddData` is the store after its calls. -/
theorem AddData_replay (ctx : Stub) (id content : GoString) :
    ctx.replay (AddData.calls ctx id content) = (AddData ctx id content).2 := by
  cases hg : ctx.getErr id with
  | some e =>
    rw [AddData_calls_of_getErr ctx id content e hg, AddData_of_getErr ctx id content e hg]
    rfl
  | none =>
    cases hs : ctx.state id with
    | some v =>
      rw [AddData_calls_of_present ctx id content v hg hs,
        AddData_of_present ctx id content v hg hs]
      rfl
    | none =>
      rw [AddData_calls_of_absent ctx id content hg hs, AddData_of_absent ctx id content hg hs]
      simp only [Stub.replay, Stub.PutState]
      cases ctx.putErr id (json.Marshal { ID := id, Content := content }).1 <;> rfl

/-- The store after `UpdateData` is the store after its calls. -/
theorem UpdateData_replay (ctx : Stub) (id content : GoString) :
    ctx.replay (UpdateData.calls ctx id content) = (UpdateData ctx id content).2 := by
  cases hg : ctx.getErr id with
  | some e =>
    rw [UpdateData_calls_of_getErr ctx id content e hg,
      UpdateData_of_getErr ctx id content e hg]
    rfl
  | none =>
    cases hs : ctx.state id with
    | none =>
      rw [UpdateData_calls_of_absent ctx id content hg hs,
        UpdateData_of_absent ctx id content hg hs]
      rfl
    | some v =>
      rw [UpdateData_calls_of_present ctx id content v hg hs,
        UpdateData_of_present ctx id content v hg hs]
      simp only [Stub.replay, Stub.PutState]
      cases ctx.putErr id (json.Marshal { ID := id, Content := content }).1 <;> rfl

/-- The store after `DeleteData` is the store after its calls. -/
theorem DeleteData_replay (ctx : Stub) (id : GoString) :
    ctx.replay (DeleteData.calls ctx id) = (DeleteData ctx id).2 := by
  cases hg : ctx.getErr id with
  | some e =>
    rw [DeleteData_calls_of_getErr ctx id e hg, DeleteData_of_getErr ctx id e hg]
    rfl
  | none =>
    cases hs : ctx.state id with
    | none =>
      rw [DeleteData_calls_of_absent ctx id hg hs, DeleteData_of_absent ctx id hg hs]
      rfl
    | some v =>
      rw [DeleteData_calls_of_present ctx id v hg hs, DeleteData_of_present ctx id v hg hs]
      simp only [Stub.replay, Stub.DelState]
      cases ctx.delErr id <;> rfl

/-- The store after `InitLedger` is the store after its calls. -/
theorem InitLedger_replay (ctx : Stub) :
    ctx.replay (InitLedger.calls ctx) = (InitLedger ctx).2 := by
  rw [InitLedger_calls_eq, InitLedger_eq]
  cases h1 : ctx.putErr (utf8.ofString "1")
      (json.Marshal
        { ID := utf8.ofString "1", Content := utf8.ofString "Texto de exemplo 1" }).1 with
  | some e => simp only [Stub.replay, Stub.PutState, h1]
  | none =>
    have hp : ∀ k v, (ctx.put (utf8.ofString "1")
        (json.Marshal
          { ID := utf8.ofString "1", Content := utf8.ofString "Texto de exemplo 1" }).1).putErr
        k v = ctx.putErr k v := fun _ _ => rfl
    cases h2 : ctx.putErr (utf8.ofString "2")
        (json.Marshal
          { ID := utf8.ofString "2", Content := utf8.ofString "Texto de exemplo 2" }).1 with
    | some e => simp only [Stub.replay, Stub.PutState, h1, hp, h2]
    | none => simp only [Stub.replay, Stub.PutState, h1, hp, h2]

/-- The message of a read failure starts with `f`: it is not the message of a record
that already exists, which starts with `o`. -/
theorem readFailure_ne_alreadyExists (e : StubError) (id : GoString) :
    readFailure e ≠ alreadyExists id := by
  intro h
  have h1 : utf8.ofString "falha ao ler do ledger: "
      = 0x66 :: (utf8.ofString "falha ao ler do ledger: ").tail := by
    decide
  have h2 : utf8.ofString "o registro " = 0x6F :: (utf8.ofString "o registro ").tail := by
    decide
  unfold readFailure alreadyExists at h
  rw [h1, h2] at h
  simp only [List.cons_append, GoError.Errorf.injEq, List.cons.injEq] at h
  exact absurd h.1 (by decide)

/-- The message of a read failure is not the message of a record that does not exist. -/
theorem readFailure_ne_notFound (e : StubError) (id : GoString) :
    readFailure e ≠ notFound id := by
  intro h
  have h1 : utf8.ofString "falha ao ler do ledger: "
      = 0x66 :: (utf8.ofString "falha ao ler do ledger: ").tail := by
    decide
  have h2 : utf8.ofString "o registro " = 0x6F :: (utf8.ofString "o registro ").tail := by
    decide
  unfold readFailure notFound at h
  rw [h1, h2] at h
  simp only [List.cons_append, GoError.Errorf.injEq, List.cons.injEq] at h
  exact absurd h.1 (by decide)

/-- Removing a key that was just written on a store that held no value under it gives
the store back. -/
theorem Stub.del_put (ctx : Stub) (key : GoString) (value : List Byte)
    (h : ctx.state key = none) : (ctx.put key value).del key = ctx := by
  cases ctx with
  | mk state getErr putErr delErr =>
    simp only [Stub.put, Stub.del, Stub.mk.injEq, and_true]
    funext k
    by_cases hk : k = key
    · simp only [hk, if_true]
      exact h.symm
    · simp only [if_neg hk]

/-- Writing again the value that a key holds changes nothing. -/
theorem Stub.put_same (ctx : Stub) (key : GoString) (value : List Byte)
    (h : ctx.state key = some value) : ctx.put key value = ctx := by
  cases ctx with
  | mk state getErr putErr delErr =>
    simp only [Stub.put, Stub.mk.injEq, and_true]
    funext k
    by_cases hk : k = key
    · simp only [hk, if_true]
      exact h.symm
    · simp only [if_neg hk]

/-! ## Decoding the stored value -/

theorem ReadData_of_decode_error (ctx : Stub) (id : GoString) (v : List Byte)
    (r : DataRecord) (e : json.JsonError)
    (hg : ctx.getErr id = none) (hs : ctx.state id = some v)
    (hu : json.Unmarshal v { ID := [], Content := [] } = (r, some e)) :
    ReadData ctx id = (none, some (GoError.json e)) := by
  simp only [ReadData, Stub.GetState, hg, hs, hu]

theorem ReadData_of_decoded (ctx : Stub) (id : GoString) (v : List Byte) (r : DataRecord)
    (hg : ctx.getErr id = none) (hs : ctx.state id = some v)
    (hu : json.Unmarshal v { ID := [], Content := [] } = (r, none)) :
    ReadData ctx id = (some r, none) := by
  simp only [ReadData, Stub.GetState, hg, hs, hu]

/-- C11: for every store and `id` whose read gives a stored value `v`: if `v` is not
valid JSON for a `DataRecord` (`json.Unmarshal` returns an error), `ReadData(id)` fails
with that decode error and returns no record; if `v` is well formed (`json.Unmarshal`
returns no error), `ReadData(id)` succeeds and returns the decoded record. -/
theorem ReadData_decode (ctx : Stub) (id : GoString) (v : List Byte)
    (hv : ctx.GetState id = (some v, none)) :
    (∀ e, (json.Unmarshal v { ID := [], Content := [] }).2 = some e →
        ReadData ctx id = (none, some (GoError.json e)))
      ∧ ((json.Unmarshal v { ID := [], Content := [] }).2 = none →
        ReadData ctx id = (some (json.Unmarshal v { ID := [], Content := [] }).1, none)) := by
  obtain ⟨hg, hs⟩ := Stub.GetState_value ctx id v hv
  constructor
  · intro e he
    exact ReadData_of_decode_error ctx id v _ e hg hs (Prod.ext rfl he)
  · intro he
    exact ReadData_of_decoded ctx id v _ hg hs (Prod.ext rfl he)

/-- Witness of C11: under the key `1`, the truncated text `{"id":"1"` is a syntax error,
the number in `{"id":1}` is a type error, and `{"content":"a","ID":"1"}` decodes to the
record with ID `1` and Content `a`. -/
theorem ReadData_decode_witness :
    ReadData (Stub.new.put [0x31] (utf8.ofString "\x7b\"id\":\"1\"")) [0x31]
        = (none, some (GoError.json json.JsonError.SyntaxError))
      ∧ ReadData (Stub.new.put [0x31] (utf8.ofString "\x7b\"id\":1\x7d")) [0x31]
        = (none, some (GoError.json (json.JsonError.UnmarshalTypeError "number")))
      ∧ ReadData (Stub.new.put [0x31] (utf8.ofString "\x7b\"content\":\"a\",\"ID\":\"1\"\x7d"))
          [0x31]
        = (some { ID := [0x31], Content := [0x61] }, none) :=
  ⟨(ReadData_decode (Stub.new.put [0x31] (utf8.ofString "\x7b\"id\":\"1\"")) [0x31]
      (utf8.ofString "\x7b\"id\":\"1\"") (by decide)).1
      json.JsonError.SyntaxError (by decide),
    (ReadData_decode (Stub.new.put [0x31] (utf8.ofString "\x7b\"id\":1\x7d")) [0x31]
      (utf8.ofString "\x7b\"id\":1\x7d") (by decide)).1
      (json.JsonError.UnmarshalTypeError "number") (by decide),
    (ReadData_decode
      (Stub.new.put [0x31] (utf8.ofString "\x7b\"content\":\"a\",\"ID\":\"1\"\x7d")) [0x31]
      (utf8.ofString "\x7b\"content\":\"a\",\"ID\":\"1\"\x7d") (by decide)).2
      (by decide)⟩

/-! ## Failures of the store -/

/-- C12: for every `id` whose read `GetState(id)` fails with an error `e`, each of
`AddData`, `UpdateData`, `DeleteData`, `ReadData` and `DataExists` returns the error
`falha ao ler do ledger: <e>`, which is neither the error of a record that already exists
nor the error of a record that does not exist, makes that one read as its only call to
the store and leaves the store as it was; and when `AddData` or `UpdateData` makes a
write `PutState` that fails, or `DeleteData` makes a delete `DelState` that fails, it
returns the error of that call. -/
theorem store_failure (ctx : Stub) (id content : GoString) :
    (∀ e, (ctx.GetState id).2 = some e →
        (AddData ctx id content = (some (readFailure e), ctx)
          ∧ AddData.calls ctx id content = [Call.get id])
        ∧ (UpdateData ctx id content = (some (readFailure e), ctx)
          ∧ UpdateData.calls ctx id content = [Call.get id])
        ∧ (DeleteData ctx id = (some (readFailure e), ctx)
          ∧ DeleteData.calls ctx id = [Call.get id])
        ∧ (ReadData ctx id = (none, some (readFailure e))
          ∧ ReadData.calls id = [Call.get id])
        ∧ (DataExists ctx id = (false, some (readFailure e))
          ∧ DataExists.calls id = [Call.get id])
        ∧ readFailure e = GoError.Errorf (utf8.ofString "falha ao ler do ledger: " ++ e)
        ∧ ∀ k, readFailure e ≠ alreadyExists k ∧ readFailure e ≠ notFound k)
      ∧ (∀ k v e, Call.put k v ∈ AddData.calls ctx id content → ctx.putErr k v = some e →
          (AddData ctx id content).1 = some (GoError.stub e))
      ∧ (∀ k v e, Call.put k v ∈ UpdateData.calls ctx id content → ctx.putErr k v = some e →
          (UpdateData ctx id content).1 = some (GoError.stub e))
      ∧ (∀ k e, Call.del k ∈ DeleteData.calls ctx id → ctx.delErr k = some e →
          (DeleteData ctx id).1 = some (GoError.stub e)) := by
  refine ⟨fun e he => ?_, fun k v e hc hp => ?_, fun k v e hc hp => ?_, fun k e hc hp => ?_⟩
  · have hg := Stub.GetState_error ctx id e he
    exact ⟨⟨AddData_of_getErr ctx id content e hg, AddData_calls_of_getErr ctx id content e hg⟩,
      ⟨UpdateData_of_getErr ctx id content e hg, UpdateData_calls_of_getErr ctx id content e hg⟩,
      ⟨DeleteData_of_getErr ctx id e hg, DeleteData_calls_of_getErr ctx id e hg⟩,
      ⟨ReadData_of_getErr ctx id e hg, rfl⟩,
      ⟨DataExists_of_getErr ctx id e hg, rfl⟩, rfl,
      fun k => ⟨readFailure_ne_alreadyExists e k, readFailure_ne_notFound e k⟩⟩
  · cases hg : ctx.getErr id with
    | some e2 =>
      rw [AddData_calls_of_getErr ctx id content e2 hg] at hc
      simp at hc
    | none =>
      cases hs : ctx.state id with
      | some w =>
        rw [AddData_calls_of_present ctx id content w hg hs] at hc
        simp at hc
      | none =>
        rw [AddData_calls_of_absent ctx id content hg hs] at hc
        simp only [List.mem_cons, List.mem_singleton, Call.put.injEq, List.not_mem_nil,
          or_false, false_or, reduceCtorEq] at hc
        obtain ⟨rfl, rfl⟩ := hc
        rw [AddData_of_absent ctx k content hg hs, hp]
  · cases hg : ctx.getErr id with
    | some e2 =>
      rw [UpdateData_calls_of_getErr ctx id content e2 hg] at hc
      simp at hc
    | none =>
      cases hs : ctx.state id with
      | none =>
        rw [UpdateData_calls_of_absent ctx id content hg hs] at hc
        simp at hc
      | some w =>
        rw [UpdateData_calls_of_present ctx id content w hg hs] at hc
        simp only [List.mem_cons, List.mem_singleton, Call.put.injEq, List.not_mem_nil,
          or_false, false_or, reduceCtorEq] at hc
        obtain ⟨rfl, rfl⟩ := hc
        rw [UpdateData_of_present ctx k content w hg hs, hp]
  · cases hg : ctx.getErr id with
    | some e2 =>
      rw [DeleteData_calls_of_getErr ctx id e2 hg] at hc
      simp at hc
    | none =>
      cases hs : ctx.state id with
      | none =>
        rw [DeleteData_calls_of_absent ctx id hg hs] at hc
        simp at hc
      | some w =>
        rw [DeleteData_calls_of_present ctx id w hg hs] at hc
        simp only [List.mem_cons, List.mem_singleton, Call.del.injEq, List.not_mem_nil,
          or_false, false_or, reduceCtorEq] at hc
        subst hc
        rw [DeleteData_of_present ctx k w hg hs, hp]

/-- Witness of C12: on the empty store whose reads fail with `x`, `AddData` returns the
read failure after its one read and leaves the store as it was; on stores whose writes
fail with `y` and whose deletes fail with `z`, `AddData` of an absent record and
`UpdateData` of a present record return `y`, and `DeleteData` of a present record
returns `z`. -/
theorem store_failure_witness :
    (AddData (Stub.empty (fun _ => some [0x78]) (fun _ _ => none) (fun _ => none)) [0x31] [0x61]
        = (some (readFailure [0x78]),
            Stub.empty (fun _ => some [0x78]) (fun _ _ => none) (fun _ => none))
      ∧ AddData.calls (Stub.empty (fun _ => some [0x78]) (fun _ _ => none) (fun _ => none))
          [0x31] [0x61] = [Call.get [0x31]])
      ∧ (AddData (Stub.empty (fun _ => none) (fun _ _ => some [0x79]) (fun _ => some [0x7A]))
          [0x31] [0x61]).1 = some (GoError.stub [0x79])
      ∧ (UpdateData
          ((Stub.empty (fun _ => none) (fun _ _ => some [0x79]) (fun _ => some [0x7A])).put
            [0x31] [0x7B, 0x7D]) [0x31] [0x61]).1 = some (GoError.stub [0x79])
      ∧ (DeleteData
          ((Stub.empty (fun _ => none) (fun _ _ => some [0x79]) (fun _ => some [0x7A])).put
            [0x31] [0x7B, 0x7D]) [0x31]).1 = some (GoError.stub [0x7A]) :=
  ⟨((store_failure (Stub.empty (fun _ => some [0x78]) (fun _ _ => none) (fun _ => none))
      [0x31] [0x61]).1 [0x78] (by decide)).1,
    (store_failure (Stub.empty (fun _ => none) (fun _ _ => some [0x79]) (fun _ => some [0x7A]))
      [0x31] [0x61]).2.1 [0x31] (json.Marshal { ID := [0x31], Content := [0x61] }).1 [0x79]
      (by decide) (by decide),
    (store_failure
      ((Stub.empty (fun _ => none) (fun _ _ => some [0x79]) (fun _ => some [0x7A])).put
        [0x31] [0x7B, 0x7D]) [0x31] [0x61]).2.2.1 [0x31]
      (json.Marshal { ID := [0x31], Content := [0x61] }).1 [0x79] (by decide) (by decide),
    (store_failure
      ((Stub.empty (fun _ => none) (fun _ _ => some [0x79]) (fun _ => some [0x7A])).put
        [0x31] [0x7B, 0x7D]) [0x31] [0x61]).2.2.2 [0x31] [0x7A] (by decide) (by decide)⟩

/-! ## InitLedger: the order of the writes -/

/-- C13: `InitLedger` writes the record `1` and then the record `2`, and it returns an
error if and only if one of the two writes fails: if the write of the record `1` fails it
returns that failure after this one call, without the write of the record `2`, and the
store is as it was; if the write of the record `1` succeeds and the write of the record
`2` fails it returns that failure and the store holds the record `1`; if both writes
succeed it returns no error and the store holds both records. -/
theorem InitLedger_order (ctx : Stub) :
    (∀ e,
        ctx.putErr (utf8.ofString "1")
          (json.Marshal
            { ID := utf8.ofString "1", Content := utf8.ofString "Texto de exemplo 1" }).1
          = some e →
        InitLedger ctx = (some (insertFailure e), ctx)
          ∧ InitLedger.calls ctx
            = [Call.put (utf8.ofString "1")
                (json.Marshal
                  { ID := utf8.ofString "1", Content := utf8.ofString "Texto de exemplo 1" }).1])
      ∧ (∀ e,
          ctx.putErr (utf8.ofString "1")
            (json.Marshal
              { ID := utf8.ofString "1", Content := utf8.ofString "Texto de exemplo 1" }).1
            = none →
          ctx.putErr (utf8.ofString "2")
            (json.Marshal
              { ID := utf8.ofString "2", Content := utf8.ofString "Texto de exemplo 2" }).1
            = some e →
          InitLedger ctx
              = (some (insertFailure e),
                ctx.put (utf8.ofString "1")
                  (json.Marshal
                    { ID := utf8.ofString "1", Content := utf8.ofString "Texto de exemplo 1" }).1)
            ∧ InitLedger.calls ctx
              = [Call.put (utf8.ofString "1")
                  (json.Marshal
                    { ID := utf8.ofString "1", Content := utf8.ofString "Texto de exemplo 1" }).1,
                Call.put (utf8.ofString "2")
                  (json.Marshal
                    { ID := utf8.ofString "2", Content := utf8.ofString "Texto de exemplo 2" }).1])
      ∧ (ctx.putErr (utf8.ofString "1")
            (json.Marshal
              { ID := utf8.ofString "1", Content := utf8.ofString "Texto de exemplo 1" }).1
            = none →
          ctx.putErr (utf8.ofString "2")
            (json.Marshal
              { ID := utf8.ofString "2", Content := utf8.ofString "Texto de exemplo 2" }).1
            = none →
          InitLedger ctx
              = (none,
                (ctx.put (utf8.ofString "1")
                  (json.Marshal
                    { ID := utf8.ofString "1", Content := utf8.ofString "Texto de exemplo 1" }).1
                  ).put
                  (utf8.ofString "2")
                  (json.Marshal
                    { ID := utf8.ofString "2", Content := utf8.ofString "Texto de exemplo 2" }).1)
            ∧ InitLedger.calls ctx
              = [Call.put (utf8.ofString "1")
                  (json.Marshal
                    { ID := utf8.ofString "1", Content := utf8.ofString "Texto de exemplo 1" }).1,
                Call.put (utf8.ofString "2")
                  (json.Marshal
                    { ID := utf8.ofString "2", Content := utf8.ofString "Texto de exemplo 2" }).1])
      ∧ ((InitLedger ctx).1 ≠ none ↔
          ∃ k v, Call.put k v ∈ InitLedger.calls ctx ∧ ctx.putErr k v ≠ none) := by
  rw [InitLedger_eq, InitLedger_calls_eq]
  cases h1 : ctx.putErr (utf8.ofString "1")
      (json.Marshal
        { ID := utf8.ofString "1", Content := utf8.ofString "Texto de exemplo 1" }).1 with
  | some e1 =>
    refine ⟨fun e he => ?_, fun e he => Option.noConfusion he,
      fun he => Option.noConfusion he, ?_⟩
    · cases he
      exact ⟨rfl, rfl⟩
    · simp only [ne_eq, reduceCtorEq, not_false_eq_true, List.mem_singleton, Call.put.injEq,
        true_iff]
      exact ⟨_, _, ⟨rfl, rfl⟩, by rw [h1]; exact Option.noConfusion⟩
  | none =>
    cases h2 : ctx.putErr (utf8.ofString "2")
        (json.Marshal
          { ID := utf8.ofString "2", Content := utf8.ofString "Texto de exemplo 2" }).1 with
    | some e2 =>
      refine ⟨fun e he => Option.noConfusion he, fun e _ he => ?_,
        fun _ he => Option.noConfusion he, ?_⟩
      · cases he
        exact ⟨rfl, rfl⟩
      · simp only [ne_eq, reduceCtorEq, not_false_eq_true, true_iff]
        exact ⟨_, _, List.mem_cons_of_mem _ (List.mem_singleton.2 rfl),
          by rw [h2]; exact Option.noConfusion⟩
    | none =>
      refine ⟨fun e he => Option.noConfusion he, fun e _ he => Option.noConfusion he,
        fun _ _ => ⟨rfl, rfl⟩, ?_⟩
      simp only [ne_eq, not_true_eq_false, false_iff, not_exists, not_and, not_not]
      intro k v hm
      simp only [List.mem_cons, List.mem_singleton, Call.put.injEq, List.not_mem_nil,
        or_false] at hm
      rcases hm with ⟨rfl, rfl⟩ | ⟨rfl, rfl⟩
      · exact h1
      · exact h2

/-- Witness of C13: on the empty store where only the write of the key `1` fails,
`InitLedger` fails after that one call and the store stays empty; where only the write of
the key `2` fails, it fails after both calls and the record `1` is stored; on the empty
store whose calls succeed it returns no error. -/
theorem InitLedger_order_witness :
    (InitLedger (Stub.empty (fun _ => none)
          (fun k _ => if k = [0x31] then some [0x79] else none) (fun _ => none))
        = (some (insertFailure [0x79]),
          Stub.empty (fun _ => none)
            (fun k _ => if k = [0x31] then some [0x79] else none) (fun _ => none))
      ∧ (InitLedger.calls (Stub.empty (fun _ => none)
          (fun k _ => if k = [0x31] then some [0x79] else none) (fun _ => none))).length = 1)
      ∧ ((InitLedger (Stub.empty (fun _ => none)
          (fun k _ => if k = [0x32] then some [0x79] else none) (fun _ => none))).1
          = some (insertFailure [0x79])
        ∧ (InitLedger (Stub.empty (fun _ => none)
            (fun k _ => if k = [0x32] then some [0x79] else none) (fun _ => none))).2.state [0x31]
          = some (json.Marshal
              { ID := utf8.ofString "1", Content := utf8.ofString "Texto de exemplo 1" }).1)
      ∧ (InitLedger Stub.new).1 = none :=
  ⟨⟨((InitLedger_order (Stub.empty (fun _ => none)
        (fun k _ => if k = [0x31] then some [0x79] else none) (fun _ => none))).1
        [0x79] (by decide)).1,
      congrArg List.length ((InitLedger_order (Stub.empty (fun _ => none)
        (fun k _ => if k = [0x31] then some [0x79] else none) (fun _ => none))).1
        [0x79] (by decide)).2⟩,
    ⟨congrArg Prod.fst ((InitLedger_order (Stub.empty (fun _ => none)
        (fun k _ => if k = [0x32] then some [0x79] else none) (fun _ => none))).2.1
        [0x79] (by decide) (by decide)).1,
      congrArg (fun r => r.2.state [0x31]) ((InitLedger_order (Stub.empty (fun _ => none)
        (fun k _ => if k = [0x32] then some [0x79] else none) (fun _ => none))).2.1
        [0x79] (by decide) (by decide)).1⟩,
    congrArg Prod.fst ((InitLedger_order Stub.new).2.2.1 (by decide) (by decide)).1⟩

/-! ## What a transaction leaves unchanged -/

/-- C14: `AddData(id, _)`, `UpdateData(id, _)` and `DeleteData(id)` leave the value of
every key other than `id` unchanged; `InitLedger` leaves the value of every key other
than `1` and `2` unchanged; `ReadData` and `DataExists` only read the store, and leave
the whole store unchanged. -/
theorem other_keys_unchanged (ctx : Stub) (id content k : GoString) :
    (k ≠ id →
        (AddData ctx id content).2.state k = ctx.state k
          ∧ (UpdateData ctx id content).2.state k = ctx.state k
          ∧ (DeleteData ctx id).2.state k = ctx.state k)
      ∧ (k ≠ utf8.ofString "1" → k ≠ utf8.ofString "2" →
          (InitLedger ctx).2.state k = ctx.state k)
      ∧ (ReadData.calls id = [Call.get id] ∧ ctx.replay (ReadData.calls id) = ctx
          ∧ ((Op.readData id).run ctx).2 = ctx)
      ∧ (DataExists.calls id = [Call.get id] ∧ ctx.replay (DataExists.calls id) = ctx
          ∧ ((Op.dataExists id).run ctx).2 = ctx) := by
  refine ⟨fun hk => ⟨?_, ?_, ?_⟩, fun hk1 hk2 => ?_, ⟨rfl, rfl, rfl⟩, ⟨rfl, rfl, rfl⟩⟩
  · by_cases hok : (AddData ctx id content).1 = none
    · rw [(AddData_success ctx id content hok).2.2, Stub.put_state_other _ _ _ _ hk]
    · rw [AddData_failure ctx id content hok]
  · by_cases hok : (UpdateData ctx id content).1 = none
    · rw [(UpdateData_success ctx id content hok).2.2, Stub.put_state_other _ _ _ _ hk]
    · rw [UpdateData_failure ctx id content hok]
  · by_cases hok : (DeleteData ctx id).1 = none
    · rw [(DeleteData_success ctx id hok).2.2, Stub.del_state_other _ _ _ hk]
    · rw [DeleteData_failure ctx id hok]
  · rw [InitLedger_eq]
    cases h1 : ctx.putErr (utf8.ofString "1")
        (json.Marshal
          { ID := utf8.ofString "1", Content := utf8.ofString "Texto de exemplo 1" }).1 with
    | some e => rfl
    | none =>
      cases h2 : ctx.putErr (utf8.ofString "2")
          (json.Marshal
            { ID := utf8.ofString "2", Content := utf8.ofString "Texto de exemplo 2" }).1 with
      | some e => exact Stub.put_state_other _ _ _ _ hk1
      | none =>
        show ((ctx.put _ _).put _ _).state k = ctx.state k
        rw [Stub.put_state_other _ _ _ _ hk2, Stub.put_state_other _ _ _ _ hk1]

/-- Witness of C14: on the store that holds `{}` under the key `3`, the transactions on
the record `1` and `InitLedger` leave the value under `3` as it is. -/
theorem other_keys_unchanged_witness :
    ((AddData (Stub.new.put [0x33] [0x7B, 0x7D]) [0x31] [0x61]).2.state [0x33]
        = (Stub.new.put [0x33] [0x7B, 0x7D]).state [0x33]
      ∧ (UpdateData (Stub.new.put [0x33] [0x7B, 0x7D]) [0x31] [0x61]).2.state [0x33]
        = (Stub.new.put [0x33] [0x7B, 0x7D]).state [0x33]
      ∧ (DeleteData (Stub.new.put [0x33] [0x7B, 0x7D]) [0x31]).2.state [0x33]
        = (Stub.new.put [0x33] [0x7B, 0x7D]).state [0x33])
      ∧ (InitLedger (Stub.new.put [0x33] [0x7B, 0x7D])).2.state [0x33]
        = (Stub.new.put [0x33] [0x7B, 0x7D]).state [0x33] :=
  ⟨(other_keys_unchanged (Stub.new.put [0x33] [0x7B, 0x7D]) [0x31] [0x61] [0x33]).1 (by decide),
    (other_keys_unchanged (Stub.new.put [0x33] [0x7B, 0x7D]) [0x31] [0x61] [0x33]).2.1
      (by decide) (by decide)⟩

/-! ## A transaction that returns an error -/

/-- C15: whenever `AddData`, `UpdateData` or `DeleteData` returns an error, the store
after the call is the store before the call. -/
theorem error_store_unchanged (ctx : Stub) (id content : GoString) :
    ((AddData ctx id content).1 ≠ none → (AddData ctx id content).2 = ctx)
      ∧ ((UpdateData ctx id content).1 ≠ none → (UpdateData ctx id content).2 = ctx)
      ∧ ((DeleteData ctx id).1 ≠ none → (DeleteData ctx id).2 = ctx) :=
  ⟨AddData_failure ctx id content, UpdateData_failure ctx id content,
    DeleteData_failure ctx id⟩

/-- Witness of C15: a rejected `AddData` of the record `1` that exists, a rejected
`UpdateData` and `DeleteData` of the record `2` that does not exist, and an `AddData`
whose write fails, each leave the store as it was. -/
theorem error_store_unchanged_witness :
    (AddData (Stub.new.put [0x31] [0x7B, 0x7D]) [0x31] [0x61]).2
        = Stub.new.put [0x31] [0x7B, 0x7D]
      ∧ (UpdateData (Stub.new.put [0x31] [0x7B, 0x7D]) [0x32] [0x61]).2
        = Stub.new.put [0x31] [0x7B, 0x7D]
      ∧ (DeleteData (Stub.new.put [0x31] [0x7B, 0x7D]) [0x32]).2
        = Stub.new.put [0x31] [0x7B, 0x7D]
      ∧ (AddData (Stub.empty (fun _ => none) (fun _ _ => some [0x79]) (fun _ => none))
          [0x31] [0x61]).2
        = Stub.empty (fun _ => none) (fun _ _ => some [0x79]) (fun _ => none) :=
  ⟨(error_store_unchanged (Stub.new.put [0x31] [0x7B, 0x7D]) [0x31] [0x61]).1 (by decide),
    (error_store_unchanged (Stub.new.put [0x31] [0x7B, 0x7D]) [0x32] [0x61]).2.1 (by decide),
    (error_store_unchanged (Stub.new.put [0x31] [0x7B, 0x7D]) [0x32] [0x61]).2.2 (by decide),
    (error_store_unchanged (Stub.empty (fun _ => none) (fun _ _ => some [0x79]) (fun _ => none))
      [0x31] [0x61]).1 (by decide)⟩

/-! ## AddData followed by DeleteData -/

/-- C16: on a store whose read, write and delete of `id` succeed and that holds no value
under `id`, `AddData(id, content)` succeeds, `DeleteData(id)` on the resulting store
succeeds, and the store after both is the original store. -/
theorem AddData_DeleteData (ctx : Stub) (id content : GoString)
    (hread : ctx.getErr id = none)
    (hwrite : ctx.putErr id (json.Marshal { ID := id, Content := content }).1 = none)
    (hdelete : ctx.delErr id = none) (habsent : ctx.state id = none) :
    (AddData ctx id content).1 = none
      ∧ (DeleteData (AddData ctx id content).2 id).1 = none
      ∧ (DeleteData (AddData ctx id content).2 id).2 = ctx := by
  have hadd : AddData ctx id content
      = (none, ctx.put id (json.Marshal { ID := id, Content := content }).1) := by
    rw [AddData_of_absent ctx id content hread habsent, hwrite]
  have hdel : DeleteData (ctx.put id (json.Marshal { ID := id, Content := content }).1) id
      = (none, (ctx.put id (json.Marshal { ID := id, Content := content }).1).del id) := by
    rw [DeleteData_of_present (ctx.put id (json.Marshal { ID := id, Content := content }).1) id
      (json.Marshal { ID := id, Content := content }).1 hread (Stub.put_state_same _ _ _)]
    have hd : (ctx.put id (json.Marshal { ID := id, Content := content }).1).delErr id
        = none := hdelete
    rw [hd]
  rw [hadd]
  simp only
  rw [hdel]
  exact ⟨trivial, rfl, Stub.del_put ctx id _ habsent⟩

/-- Witness of C16: the record `1` on the empty store whose calls succeed. -/
theorem AddData_DeleteData_witness :
    (AddData Stub.new [0x31] [0x61]).1 = none
      ∧ (DeleteData (AddData Stub.new [0x31] [0x61]).2 [0x31]).1 = none
      ∧ (DeleteData (AddData Stub.new [0x31] [0x61]).2 [0x31]).2 = Stub.new :=
  AddData_DeleteData Stub.new [0x31] [0x61] (by decide) (by decide) (by decide) (by decide)

/-! ## InitLedger twice -/

/-- C17: `InitLedger` never reads the store, and on every store where the writes of the
two seed records succeed, whatever the store holds under the keys `1` and `2`,
`InitLedger` succeeds, a second `InitLedger` succeeds too, and the store after the
second is the store after the first. -/
theorem InitLedger_idempotent (ctx : Stub)
    (hw1 : ctx.putErr (utf8.ofString "1")
      (json.Marshal
        { ID := utf8.ofString "1", Content := utf8.ofString "Texto de exemplo 1" }).1 = none)
    (hw2 : ctx.putErr (utf8.ofString "2")
      (json.Marshal
        { ID := utf8.ofString "2", Content := utf8.ofString "Texto de exemplo 2" }).1 = none) :
    (∀ k, Call.get k ∉ InitLedger.calls ctx)
      ∧ (InitLedger ctx).1 = none
      ∧ (InitLedger (InitLedger ctx).2).1 = none
      ∧ (InitLedger (InitLedger ctx).2).2 = (InitLedger ctx).2 := by
  have hc : ∀ k, Call.get k ∉ InitLedger.calls ctx := by
    intro k
    rw [InitLedger_calls_eq, hw1]
    simp
  have h1 : InitLedger ctx
      = (none,
        (ctx.put (utf8.ofString "1")
          (json.Marshal
            { ID := utf8.ofString "1", Content := utf8.ofString "Texto de exemplo 1" }).1).put
          (utf8.ofString "2")
          (json.Marshal
            { ID := utf8.ofString "2", Content := utf8.ofString "Texto de exemplo 2" }).1) := by
    rw [InitLedger_eq, hw1, hw2]
  refine ⟨hc, ?_⟩
  rw [h1]
  simp only
  generalize hm1 : (json.Marshal
    { ID := utf8.ofString "1", Content := utf8.ofString "Texto de exemplo 1" }).1 = m1 at hw1 ⊢
  generalize hm2 : (json.Marshal
    { ID := utf8.ofString "2", Content := utf8.ofString "Texto de exemplo 2" }).1 = m2 at hw2 ⊢
  have hp1 : ((ctx.put (utf8.ofString "1") m1).put (utf8.ofString "2") m2).putErr
      (utf8.ofString "1") m1 = none := hw1
  have hp2 : ((ctx.put (utf8.ofString "1") m1).put (utf8.ofString "2") m2).putErr
      (utf8.ofString "2") m2 = none := hw2
  have h2 := InitLedger_eq ((ctx.put (utf8.ofString "1") m1).put (utf8.ofString "2") m2)
  rw [hm1, hm2, hp1, hp2] at h2
  rw [h2]
  refine ⟨trivial, rfl, ?_⟩
  have hs1 : ((ctx.put (utf8.ofString "1") m1).put (utf8.ofString "2") m2).state
      (utf8.ofString "1") = some m1 := by
    rw [Stub.put_state_other _ _ _ _ (by decide), Stub.put_state_same]
  show (((ctx.put (utf8.ofString "1") m1).put (utf8.ofString "2") m2).put
    (utf8.ofString "1") m1).put (utf8.ofString "2") m2 = _
  rw [Stub.put_same _ _ _ hs1, Stub.put_same _ _ _ (Stub.put_state_same _ _ _)]

/-- Witness of C17: on the store that holds `{}` under the key `1`, `InitLedger`
succeeds, and a second `InitLedger` succeeds and gives the same store. -/
theorem InitLedger_idempotent_witness :
    (Stub.new.put [0x31] [0x7B, 0x7D]).state (utf8.ofString "1") = some [0x7B, 0x7D]
      ∧ (InitLedger (Stub.new.put [0x31] [0x7B, 0x7D])).1 = none
      ∧ (InitLedger (InitLedger (Stub.new.put [0x31] [0x7B, 0x7D])).2).1 = none
      ∧ (InitLedger (InitLedger (Stub.new.put [0x31] [0x7B, 0x7D])).2).2
        = (InitLedger (Stub.new.put [0x31] [0x7B, 0x7D])).2 :=
  ⟨by decide,
    (InitLedger_idempotent (Stub.new.put [0x31] [0x7B, 0x7D]) (by decide) (by decide)).2⟩
